import Mathlib

/-!
# Formal model of the DayHot content pipeline

A shallow embedding, in Lean 4, of the scraping / translation / rendering code of
the DayHot repository (`scraper/github_scraper.py`, `scraper/producthunt_scraper.py`,
`scraper/hackernews_scraper.py`, `scraper/translator.py`,
`scraper/markdown_generator.py`), together with proofs about the embedded code.

Modelling conventions:
* Python strings are `List Char` (`PyStr`); Python `len` is `List.length`
  (both count unicode code points).
* Machine-level effects (HTTP, logging, sleeping) are modelled by explicit
  oracles passed as arguments and by traces returned as data; `time.sleep`
  calls are recorded in a trace list.
* Python `float` is modelled as IEEE-754 binary64 arithmetic: a decimal
  literal (underscore grouping included) is parsed exactly and then rounded
  to 53 bits with round-to-nearest, ties-to-even, overflowing to infinity
  and underflowing through the subnormal range; multiplication by the
  `k`/`m` scale rounds the exact product the same way, and `int()` truncates
  toward zero, raising `OverflowError` (caught by the source) on infinity.
  The textual `inf`/`nan` literals of `float()` are not modelled: on them
  the source's `int()` raises and the bare `except` returns 0, which is the
  same result the model's parse failure produces.
* Fallible Python code (functions returning `None` on failure, `try/except`
  blocks) is modelled with `Option`/`Except`; unbounded `while` loops are
  modelled with explicit fuel, `none` standing for non-termination.
-/

namespace DayHot

/-- Python strings, modelled as lists of unicode characters. -/
abbrev PyStr := List Char

/-- Embed a Lean string literal as a Python string. -/
def pys (s : String) : PyStr := s.data

/-- Python `str.strip()`: drop leading and trailing whitespace
(Lean's `Char.isWhitespace`; Python also strips some rarer unicode spaces,
which never occur in the strings handled here). -/
def stripWS (s : PyStr) : PyStr :=
  ((s.dropWhile Char.isWhitespace).reverse.dropWhile Char.isWhitespace).reverse

/-- Value of a list of decimal digit characters, most significant first
(the usual positional fold). -/
def digitsVal (ds : List Char) : ℕ :=
  ds.foldl (fun a c => 10 * a + (c.toNat - '0'.toNat)) 0

/-- An exact decimal value `man * 10 ^ exp`: the mathematical value of a
decimal float literal before IEEE rounding. -/
structure Dec where
  man : ℤ
  exp : ℤ
  deriving DecidableEq

/-- A consumed digit run with Python's underscore grouping: digits, with a
single `_` allowed only between two digits (as `float()` accepts).  Returns
the digits (underscores removed) and the unconsumed rest; an `_` not
followed by a digit ends the run at the previous digit, so the overall
parse then fails exactly where Python raises `ValueError`. -/
def takeDigitsUAux : ℕ → PyStr → List Char × PyStr
  | 0, s => ([], s)
  | fuel + 1, s =>
    match s with
    | [] => ([], [])
    | c :: rest =>
      if c.isDigit = true then
        match rest with
        | u :: d :: r2 =>
          if u = '_' ∧ d.isDigit = true then
            let p := takeDigitsUAux fuel (d :: r2)
            (c :: p.1, p.2)
          else
            let p := takeDigitsUAux fuel (u :: d :: r2)
            (c :: p.1, p.2)
        | _ =>
          let p := takeDigitsUAux fuel rest
          (c :: p.1, p.2)
      else ([], c :: rest)

/-- The digit run itself: the list is its own (generous) fuel bound. -/
def takeDigitsU (s : PyStr) : List Char × PyStr := takeDigitsUAux s.length s

/-- Leading optional sign of a numeric literal: the sign factor and the rest. -/
def splitSign : PyStr → ℤ × PyStr
  | [] => (1, [])
  | c :: r => if c = '+' then (1, r) else if c = '-' then (-1, r) else (1, c :: r)

/-- Exponent digits (with optional sign) of a float literal: the part after
`e`/`E`.  Fails unless the remainder is a non-empty digit run. -/
def parseExpDigits (s : PyStr) : Option ℤ :=
  let (sgn, t) := splitSign s
  let p := takeDigitsU t
  if p.1.isEmpty || !p.2.isEmpty then none
  else some (sgn * (digitsVal p.1 : ℤ))

/-- The trailing exponent part of a float literal: empty, or `e`/`E` followed
by signed digits. -/
def parseExpPart (t : PyStr) : Option ℤ :=
  match t with
  | [] => some 0
  | c :: r => if c = 'e' ∨ c = 'E' then parseExpDigits r else none

/-- The part of float-literal parsing after the sign has been consumed:
`digits [. digits] [exponent]`. -/
def pyFloatAfterSign (sgn : ℤ) (t : PyStr) : Option Dec :=
  let p1 := takeDigitsU t
  let ip := p1.1
  let t1 := p1.2
  if t1.head? = some '.' then
    let p2 := takeDigitsU t1.tail
    let fp := p2.1
    let t2 := p2.2
    if ip.isEmpty && fp.isEmpty then none
    else (parseExpPart t2).map (fun e =>
      ⟨sgn * ((digitsVal ip * 10 ^ fp.length + digitsVal fp : ℕ) : ℤ), e - fp.length⟩)
  else
    if ip.isEmpty then none
    else (parseExpPart t1).map (fun e => ⟨sgn * (digitsVal ip : ℕ), e⟩)

/-- The exact value of a decimal float literal
(`[ws] [sign] digits [. digits] [exponent] [ws]`, underscore grouping
allowed): `±(I + F / 10^f) * 10^e`, represented as the `Dec` value
`±(I * 10^f + F) * 10^(e - f)`.  `none` where `float` raises `ValueError`. -/
def pyFloatDec (s : PyStr) : Option Dec :=
  let t0 := stripWS s
  let (sgn, t) := splitSign t0
  pyFloatAfterSign sgn t

/-! ### IEEE-754 binary64 arithmetic -/

/-- A binary64 value: finite `n * 2 ^ e` with `|n| < 2^53` (sign carried by
`n`), or a signed infinity.  NaN cannot arise in this program. -/
inductive Fp where
  | finite (n : ℤ) (e : ℤ) : Fp
  | inf (neg : Bool) : Fp
  deriving DecidableEq

/-- Bit length of a natural number (fuel-driven so that it evaluates in the
kernel; `bitLenAux n n` always has enough fuel). -/
def bitLenAux : ℕ → ℕ → ℕ
  | 0, _ => 0
  | fuel + 1, n => if n = 0 then 0 else bitLenAux fuel (n / 2) + 1

/-- Bit length: 0 for 0, otherwise `⌊log₂ n⌋ + 1`. -/
def bitLenN (n : ℕ) : ℕ := bitLenAux n n

/-- `2 ^ e ≤ a / b` for positive naturals `a, b` and an integer exponent. -/
def le2 (a b : ℕ) (e : ℤ) : Bool :=
  if 0 ≤ e then decide (b * 2 ^ e.toNat ≤ a) else decide (b ≤ a * 2 ^ (-e).toNat)

/-- `⌊log₂ (a / b)⌋` for positive `a, b`: the bit-length estimate, corrected
downward when it overshoots. -/
def floorLog2 (a b : ℕ) : ℤ :=
  let e0 : ℤ := (bitLenN a : ℤ) - (bitLenN b : ℤ)
  if le2 a b e0 then e0 else e0 - 1

/-- Round the positive rational `a / b` to binary64 with round-to-nearest,
ties-to-even: significand of at most 53 bits, exponent clamped at the
subnormal floor `2^-1074`, overflow to infinity above `(2^53-1) * 2^971`. -/
def roundAB (neg : Bool) (a b : ℕ) : Fp :=
  let e := floorLog2 a b
  let E : ℤ := max (e - 52) (-1074)
  let nd : ℕ × ℕ := if 0 ≤ -E then (a * 2 ^ (-E).toNat, b) else (a, b * 2 ^ E.toNat)
  let q := nd.1 / nd.2
  let r := nd.1 % nd.2
  let n := if nd.2 < 2 * r then q + 1
           else if 2 * r < nd.2 then q
           else if q % 2 = 0 then q else q + 1
  let nE : ℕ × ℤ := if n = 2 ^ 53 then (2 ^ 52, E + 1) else (n, E)
  if 971 < nE.2 then Fp.inf neg
  else Fp.finite (if neg then -(nE.1 : ℤ) else (nE.1 : ℤ)) nE.2

/-- Round an exact decimal to binary64. -/
def roundDecB64 (d : Dec) : Fp :=
  if d.man = 0 then Fp.finite 0 0
  else
    let neg := d.man < 0
    let m := d.man.natAbs
    if 0 ≤ d.exp then roundAB neg (m * 10 ^ d.exp.toNat) 1
    else roundAB neg m (10 ^ (-d.exp).toNat)

/-- Model of Python's `float(s)` on decimal literals: exact parse followed by
binary64 rounding.  `none` where `float` raises `ValueError`. -/
def pyFloat (s : PyStr) : Option Fp :=
  (pyFloatDec s).map roundDecB64

/-- Python float–int multiplication `x * k` for `k ≥ 1`: the exact product
rounded back to binary64. -/
def fpScale (f : Fp) (k : ℕ) : Fp :=
  match f with
  | .inf neg => .inf neg
  | .finite n e =>
    if n = 0 then .finite 0 0
    else
      let neg := n < 0
      let m := n.natAbs * k
      if 0 ≤ e then roundAB neg (m * 2 ^ e.toNat) 1
      else roundAB neg m (2 ^ (-e).toNat)

/-- Python `int(x)` on a float: truncation toward zero; `none` where the
source's `int` raises `OverflowError` (infinity). -/
def fpToInt : Fp → Option ℤ
  | .inf _ => none
  | .finite n e =>
    if 0 ≤ e then some (n * 2 ^ e.toNat)
    else some (n.tdiv (2 ^ (-e).toNat))

/-- The comma/space-stripping and lowercasing done by `_parse_number`:
`text.replace(',', '').replace(' ', '').lower()`. -/
def pyStripLower (text : PyStr) : PyStr :=
  ((text.filter (· ≠ ',')).filter (· ≠ ' ')).map Char.toLower

/-- `int(float(text))`, with 0 for both the `ValueError` of `float` and the
`OverflowError` of `int` (the bare `except: return 0` of the source). -/
def intOfFloat : Option Fp → ℤ
  | none => 0
  | some f => (fpToInt f).getD 0

/-- `int(float(text) * k)`, with 0 for any raised error as above. -/
def intOfFloatScaled (k : ℕ) : Option Fp → ℤ
  | none => 0
  | some f => (fpToInt (fpScale f k)).getD 0

/-- `GitHubTrendingScraper._parse_number` (and the identical
`ProductHuntScraper._parse_number`): strip commas and spaces, lowercase,
then `int(float(text) * 1000)` / `int(float(text) * 1000000)` when a `k` /
`m` is present, else `int(float(text))`, in binary64 arithmetic; any raised
error yields 0 (the bare `except`). -/
def parse_number (text : PyStr) : ℤ :=
  if text = [] then 0
  else
    let t := pyStripLower text
    if t.contains 'k' then intOfFloatScaled 1000 (pyFloat (t.filter (· ≠ 'k')))
    else if t.contains 'm' then intOfFloatScaled 1000000 (pyFloat (t.filter (· ≠ 'm')))
    else intOfFloat (pyFloat t)

/-! ### Structured numeric inputs (spec side of claim C1) -/

/-- The ten decimal digit characters. -/
def decDigits : PyStr := pys "0123456789"

/-- A structured "number with optional `k`/`m` suffix": sign, integer digits,
optional dot with fraction digits, and the scaling exponent of the suffix
(`0` none, `3` for `k`, `6` for `m`). -/
structure NumLit where
  neg : Bool
  ip : PyStr
  dotted : Bool
  fp : PyStr
  sfx : ℕ

/-- Well-formedness of a structured numeric input: digit lists hold digit
characters, the digit part is non-empty, a fraction part only occurs after a
dot, and the suffix exponent is one of 0 / 3 / 6. -/
def NumLit.WF (c : NumLit) : Prop :=
  (∀ ch ∈ c.ip, ch ∈ decDigits) ∧ (∀ ch ∈ c.fp, ch ∈ decDigits) ∧
  (if c.dotted then c.ip ≠ [] ∨ c.fp ≠ [] else c.ip ≠ [] ∧ c.fp = []) ∧
  (c.sfx = 0 ∨ c.sfx = 3 ∨ c.sfx = 6)

/-- The numeric body of a structured numeric input, without the suffix. -/
def NumLit.core (c : NumLit) : PyStr :=
  (if c.neg then ['-'] else []) ++ c.ip ++ (if c.dotted then '.' :: c.fp else [])

/-- The canonical text of a structured numeric input (already lowercased and
free of commas and spaces). -/
def NumLit.render (c : NumLit) : PyStr :=
  c.core ++ (if c.sfx = 3 then ['k'] else if c.sfx = 6 then ['m'] else [])

/-- The exact value of a structured numeric input,
`±(digits of ip.fp) / 10^|fp|`, as a `Dec`. -/
def NumLit.valueDec (c : NumLit) : Dec :=
  ⟨(if c.neg then -1 else 1) * (digitsVal (c.ip ++ c.fp) : ℕ), -(c.fp.length : ℤ)⟩

/-- What Python computes for a structured numeric input: the value rounded
to binary64, multiplied by the `10^sfx` scale in binary64 when a suffix is
present, truncated toward zero; 0 when `int` overflows on infinity. -/
def NumLit.resultInt (c : NumLit) : ℤ :=
  if c.sfx = 0 then (fpToInt (roundDecB64 c.valueDec)).getD 0
  else (fpToInt (fpScale (roundDecB64 c.valueDec) (10 ^ c.sfx))).getD 0

/-- The suffix handling of `_parse_number`: remove every `k` (resp. `m`)
when one is present, mirroring the `replace` calls of the source. -/
def stripKM (t : PyStr) : PyStr :=
  if t.contains 'k' then t.filter (· ≠ 'k')
  else if t.contains 'm' then t.filter (· ≠ 'm')
  else t

/-! ## GitHub scraper model (`scraper/github_scraper.py`) -/

/-- Python `str.strip('/')`: remove leading and trailing `/` characters. -/
def stripSlashes (s : PyStr) : PyStr :=
  ((s.dropWhile (· = '/')).reverse.dropWhile (· = '/')).reverse

/-- `re.match(r'^/[^/]+/[^/]+$', href)`: a slash, a non-empty slash-free
segment, a slash, a non-empty slash-free segment, end of string. -/
def repoHrefMatch (s : PyStr) : Bool :=
  if s.head? = some '/' then
    let rest := s.tail
    let a := rest.takeWhile (· ≠ '/')
    let b := rest.dropWhile (· ≠ '/')
    if b.head? = some '/' then
      !a.isEmpty && !b.tail.isEmpty && !(b.tail.contains '/')
    else false
  else false

/-- The results of the BeautifulSoup queries that `_parse_repository_article`
performs on one `article` element; each field holds the outcome of the
corresponding `find`/`find_all` call on the underlying HTML. -/
structure Article where
  /-- `find('h2', class_='h3 lh-condensed')` then `.find('a')` then
  `.get('href', '')`: `none` = no such `h2`, `some none` = `h2` without an
  anchor, `some (some h)` = anchor with `href` value `h`. -/
  h2Anchor : Option (Option PyStr)
  /-- `href` values of all anchors with an `href`, in document order
  (`find_all('a', href=True)`); `find('a', href=re.compile(pat))` returns
  the first of these whose `href` matches `pat`. -/
  anchorHrefs : List PyStr
  /-- text of `find('p')` -/
  pTag : Option PyStr
  /-- text of `find('span', {'itemprop': 'programmingLanguage'})` -/
  langItemprop : Option PyStr
  /-- text of `find('span', class_=re.compile(r'.*language.*'))` -/
  langClassSpan : Option PyStr
  /-- text of `find('a', href=re.compile(r'/stargazers'))` -/
  stargazersAnchor : Option PyStr
  /-- text of `find('a', href=re.compile(r'/forks'))` -/
  forksAnchor : Option PyStr
  /-- text of `find('span', class_='d-inline-block float-sm-right')` -/
  todaySpan : Option PyStr
  /-- topic texts of the `topic-tag` anchors under
  `find('div', class_='f6 color-fg-muted mb-2')` (`none` when that div is absent) -/
  topicsDiv : Option (List PyStr)
  deriving DecidableEq

/-- Repository record produced by `_parse_repository_article`, with the
fields appended later by the translator; a dict key that may be wholly absent
is an `Option`, keys always written by the scraper are plain values. -/
structure Repo where
  name : PyStr
  url : PyStr
  description : PyStr
  language : PyStr
  stars : ℤ
  forks : ℤ
  today_stars : ℤ
  topics : List PyStr
  description_zh : Option PyStr := none
  readme_content : PyStr := []
  features : List PyStr := []
  features_zh : List PyStr := []
  use_cases : PyStr := []
  use_cases_zh : PyStr := []
  core_value_zh : PyStr := []
  deriving DecidableEq

/-- The link cascade of `_parse_repository_article`: the `h2` anchor when it
yields a non-empty stripped name, else the first anchor matching
`^/[^/]+/[^/]+$` (methods 2 and 3 of the source perform the same search).
Returns `None` when nothing is found; the caller re-checks emptiness and the
remaining fields are extracted with individual finds and source defaults. -/
def repoHref (a : Article) : Option PyStr :=
  let href1 : Option PyStr :=
    match a.h2Anchor with
    | some (some h) => if stripSlashes h = [] then none else some h
    | _ => none
  href1 <|> a.anchorHrefs.find? repoHrefMatch

/-- Continuation of `_parse_repository_article` after the link cascade. -/
def parse_repository_article (a : Article) : Option Repo :=
  match repoHref a with
  | none => none
  | some h =>
    if stripSlashes h = [] then none
    else
      some {
        name := stripSlashes h
        url := pys "https://github.com" ++ h
        description := (a.pTag.map stripWS).getD []
        language :=
          match a.langItemprop with
          | some t => stripWS t
          | none =>
            match a.langClassSpan with
            | some t => stripWS t
            | none => pys "Unknown"
        stars := (a.stargazersAnchor.map (fun t => parse_number (stripWS t))).getD 0
        forks := (a.forksAnchor.map (fun t => parse_number (stripWS t))).getD 0
        today_stars := (a.todaySpan.map (fun t => parse_number (stripWS t))).getD 0
        topics := (a.topicsDiv.map (fun l => l.map stripWS)).getD [] }

/-- The three `find_all` results of one fetched trending page. -/
structure Page where
  /-- `soup.find_all('article', class_='Box-row')` -/
  boxRowArticles : List Article
  /-- `soup.find_all('div', class_='Box-row')` -/
  boxRowDivs : List Article
  /-- `soup.find_all('article')` -/
  plainArticles : List Article
  deriving DecidableEq

/-- The selector cascade of `get_trending_repositories` (lines 53–62): take
the first non-empty `find_all` result. -/
def selectArticles (p : Page) : List Article :=
  if p.boxRowArticles ≠ [] then p.boxRowArticles
  else if p.boxRowDivs ≠ [] then p.boxRowDivs
  else p.plainArticles

/-- Outcome of one fetch attempt: a raised exception (network error or any
other failure before parsing) or a parsed page. -/
inductive Fetched where
  | exn : Fetched
  | page : Page → Fetched
  deriving DecidableEq

/-- Observable result of a `get_trending_repositories` call: the returned
list, the number of attempts that ran, and the `time.sleep` durations in
order. -/
structure GHRun where
  repositories : List Repo
  attempts : ℕ
  sleeps : List ℕ
  deriving DecidableEq

/-- The retry loop of `get_trending_repositories`: one step per attempt.
`r` is the number of loop iterations that remain (`max_retries - attempt`);
`attempt < max_retries - 1` is `r ≠ 1`.  On the last attempt every failure
path returns `[]`; earlier failures sleep `2 ** attempt` and continue. -/
def get_trending_repositories_loop (fetch : ℕ → Fetched) : ℕ → ℕ → GHRun
  | _, 0 => ⟨[], 0, []⟩
  | attempt, r + 1 =>
    match fetch attempt with
    | .exn =>
      if r = 0 then ⟨[], 1, []⟩
      else
        let rest := get_trending_repositories_loop fetch (attempt + 1) r
        ⟨rest.repositories, rest.attempts + 1, 2 ^ attempt :: rest.sleeps⟩
    | .page p =>
      let arts := selectArticles p
      if arts = [] then
        if r = 0 then ⟨[], 1, []⟩
        else
          let rest := get_trending_repositories_loop fetch (attempt + 1) r
          ⟨rest.repositories, rest.attempts + 1, 2 ^ attempt :: rest.sleeps⟩
      else
        let repos := arts.filterMap parse_repository_article
        if repos ≠ [] then ⟨repos, 1, []⟩
        else
          if r = 0 then ⟨[], 1, []⟩
          else
            let rest := get_trending_repositories_loop fetch (attempt + 1) r
            ⟨rest.repositories, rest.attempts + 1, 2 ^ attempt :: rest.sleeps⟩

/-- `GitHubTrendingScraper.get_trending_repositories`, parameterised by the
outcome of each attempt (language/since only build the URL and are omitted). -/
def get_trending_repositories (fetch : ℕ → Fetched) (max_retries : ℕ := 3) : GHRun :=
  get_trending_repositories_loop fetch 0 max_retries

/-! ### GitHub fixtures -/

/-- An article whose `h2` anchor is `/a/b` and nothing else is found. -/
def articleAB : Article :=
  ⟨some (some (pys "/a/b")), [], none, none, none, none, none, none, none⟩

/-- A page where the primary selector finds nothing and the `div.Box-row`
fallback finds exactly one article. -/
def pageOneDiv : Page := ⟨[], [articleAB], []⟩

/-- A page where the primary selector finds nothing and the `div.Box-row`
fallback finds five articles. -/
def pageFiveDivs : Page := ⟨[], List.replicate 5 articleAB, []⟩

/-- A fixture article with a given `h2` href and stargazers text. -/
def fixtureArticle (href stars : String) : Article :=
  ⟨some (some (pys href)), [], none, none, none, some (pys stars), none, none, none⟩

/-- The three-entry fixture of claim C9: names `a/b`, `c/d`, `e/f` with star
strings `1.2k`, `3,400`, `500`. -/
def fixturePage : Page :=
  ⟨[fixtureArticle "/a/b" "1.2k", fixtureArticle "/c/d" "3,400",
    fixtureArticle "/e/f" "500"], [], []⟩

/-- A fetch oracle that fails (raises) on the first two attempts and returns
`fixturePage` from the third on. -/
def fetchFailTwice : ℕ → Fetched :=
  fun i => if i < 2 then .exn else .page fixturePage

/-! ## Product Hunt scraper model (`scraper/producthunt_scraper.py`) -/

/-- A post node of the GraphQL response; each field is the value the source
reads with `post.get(key)` (`none` when the key is missing). -/
structure Post where
  name : Option PyStr
  url : Option PyStr
  description : Option PyStr
  votesCount : Option ℤ
  deriving DecidableEq

/-- One page of `posts` data: the `nodes` plus `pageInfo`. -/
structure PHPage where
  nodes : List Post
  hasNextPage : Bool
  endCursor : PyStr
  deriving DecidableEq

/-- Outcome of one GraphQL request for a given cursor: a transport error
(`requests` exception, re-raised by the source), a response failing the
shape check `'data' in data and 'posts' in data['data']` (also raised), or
a page. -/
inductive PHResp where
  | exn : PHResp
  | malformed : PHResp
  | ok : PHPage → PHResp
  deriving DecidableEq

/-- A normalised product record. -/
structure Product where
  name : PyStr
  url : PyStr
  description : PyStr
  tags : List PyStr
  votes : ℤ
  deriving DecidableEq

/-- Conversion of one post into a product record (`_fetch_from_api` lines
177–186): `get` defaults for missing keys; an entry whose name is empty is
not appended. -/
def postToProduct (post : Post) : Option Product :=
  let info : Product :=
    { name := post.name.getD []
      url := post.url.getD []
      description := post.description.getD []
      tags := []
      votes := post.votesCount.getD 0 }
  if info.name ≠ [] then some info else none

/-- The descending-votes ordering of
`sorted(all_posts, key=lambda x: x.get('votesCount', 0), reverse=True)`;
`mergeSort` with this `le` is a stable descending sort, like Python's. -/
def votesDesc (a b : Post) : Bool :=
  decide ((b.votesCount.getD 0) ≤ (a.votesCount.getD 0))

/-- The `while has_next_page and len(all_posts) < 30` loop of
`_fetch_from_api`, with explicit fuel; `none` means the fuel ran out while
the loop would have continued (non-termination cannot arise in the source
only if every page makes progress).  `Except.error` is a raised exception. -/
def phLoop (api : PyStr → PHResp) : ℕ → List Post → Bool → PyStr →
    Option (Except Unit (List Post))
  | 0, acc, hasNext, _ =>
    if hasNext ∧ acc.length < 30 then none else some (.ok acc)
  | fuel + 1, acc, hasNext, cursor =>
    if hasNext ∧ acc.length < 30 then
      match api cursor with
      | .exn => some (.error ())
      | .malformed => some (.error ())
      | .ok p => phLoop api fuel (acc ++ p.nodes) p.hasNextPage p.endCursor
    else some (.ok acc)

/-- `ProductHuntScraper._fetch_from_api`: raises when no token is available,
otherwise pages through the cursor chain accumulating posts, then sorts by
vote count descending, truncates to the first 10 and converts, dropping
unnamed posts. -/
def fetch_from_api (hasToken : Bool) (api : PyStr → PHResp) (fuel : ℕ) :
    Option (Except Unit (List Product)) :=
  if !hasToken then some (.error ())
  else
    (phLoop api fuel [] true []).map (Except.map (fun allPosts =>
      ((allPosts.mergeSort votesDesc).take 10).filterMap postToProduct))

/-- `ProductHuntScraper.get_trending_products`: the API result truncated to
ten when non-empty, `[]` when the fetch raised or produced nothing.  The
`_scrape_webpage` / `_generate_mock_products` fallbacks (lines 87–98 of the
source) are commented out and unreachable, so they do not appear here. -/
def get_trending_products (hasToken : Bool) (api : PyStr → PHResp) (fuel : ℕ) :
    Option (List Product) :=
  match fetch_from_api hasToken api fuel with
  | none => none
  | some (.error _) => some []
  | some (.ok products) => if products ≠ [] then some (products.take 10) else some []

/-- Spec-side pagination in the words of claim C6: request the page for the
current cursor, and keep following the returned cursor while the API signals
a next page and the accumulated count stays below the ceiling of 30,
concatenating the pages' nodes in order. -/
def phChain (api : PyStr → PHResp) : ℕ → PyStr → ℕ → Option (Except Unit (List Post))
  | 0, _, _ => none
  | fuel + 1, cursor, count =>
    match api cursor with
    | .exn => some (.error ())
    | .malformed => some (.error ())
    | .ok p =>
      if p.hasNextPage ∧ count + p.nodes.length < 30 then
        (phChain api fuel p.endCursor (count + p.nodes.length)).map
          (Except.map (fun rest => p.nodes ++ rest))
      else some (.ok p.nodes)

/-! ### Product Hunt webpage scraping (`_scrape_webpage`, lines 190–249) -/

/-- One candidate product element of the Product Hunt page, by the queries
`_parse_product_element` makes of it: for each `select_one` selector of the
source's name / description / votes lists (in the source's order), the raw
`get_text()` of the first match (`none` when the selector matches nothing);
the `href` of the first `<a href=...>` descendant; the raw `get_text()` of
each `<a class=~tag>` descendant, in document order; and the element's whole
`get_text()` for the line-splitting fallback. -/
structure PHElement where
  nameSels : List (Option PyStr)
  linkHref : Option PyStr
  descSels : List (Option PyStr)
  tagTexts : List PyStr
  votesSels : List (Option PyStr)
  allText : PyStr
  deriving DecidableEq

/-- The Product Hunt page, by the queries `_scrape_webpage` makes of it: the
match list of each of the seven CSS selectors of the cascade (lines 205–213),
in the source's order, and the deduplicated `div`/`article` parents of the
first twenty `/posts/` links (the materialised `list(parent_elements)` of
line 232). -/
structure PHWebDoc where
  selectorResults : List (List PHElement)
  linkParents : List PHElement

/-- The selector loop of lines 216–221: the first selector whose match list
is non-empty wins and its matches are truncated to ten (`elements[:10]`). -/
def firstSelHit : List (List PHElement) → List PHElement
  | [] => []
  | l :: ls => if l = [] then firstSelHit ls else l.take 10

/-- Lines 215–232: the selector cascade, then — only when it produced no
elements — the `/posts/`-link parent fallback, truncated to ten. -/
def selectProductElements (doc : PHWebDoc) : List PHElement :=
  let fromSel := firstSelHit doc.selectorResults
  if fromSel = [] then doc.linkParents.take 10 else fromSel

/-- The `select_one` cascades of `_parse_product_element`: the stripped text
of the first selector that matched an element (the loop breaks on a matched
element even when its stripped text is empty), `""` when none matched. -/
def firstSelText : List (Option PyStr) → PyStr
  | [] => []
  | some t :: _ => stripWS t
  | none :: rest => firstSelText rest

/-- The votes cascade of lines 291–298: the first matched selector's stripped
text through `_parse_number`, 0 when no selector matched. -/
def firstVotes : List (Option PyStr) → ℤ
  | [] => 0
  | some t :: _ => parse_number (stripWS t)
  | none :: rest => firstVotes rest

/-- `str.split` on a single newline: the separated pieces, in order. -/
def splitNLAux : PyStr → PyStr → List PyStr
  | [], acc => [acc.reverse]
  | c :: rest, acc =>
    if c = '\n' then acc.reverse :: splitNLAux rest []
    else splitNLAux rest (c :: acc)

/-- `all_text.split('\n')`. -/
def splitNL (s : PyStr) : List PyStr := splitNLAux s []

/-- A parsed webpage product record (the dict of lines 312–318). -/
structure ProductInfo where
  name : PyStr
  url : PyStr
  description : PyStr
  tags : List PyStr
  votes : ℤ
  deriving DecidableEq

/-- `ProductHuntScraper._parse_product_element` (lines 251–322): name and
description from their selector cascades; the url from the first link's
`href`, prefixed with the base url when relative; the non-empty stripped tag
texts; votes from the votes cascade; when both name and description came up
empty, the first non-blank stripped lines of the element's text supply
`name = lines[0][:100]` and `description = lines[1][:200]`; an element still
lacking a name yields `None`. -/
def parse_product_element (e : PHElement) : Option ProductInfo :=
  let name0 := firstSelText e.nameSels
  let url := match e.linkHref with
    | none => []
    | some href =>
      if href.head? = some '/' then pys "https://www.producthunt.com" ++ href else href
  let description0 := firstSelText e.descSels
  let tags := (e.tagTexts.map stripWS).filter (· ≠ [])
  let votes := firstVotes e.votesSels
  let nd : PyStr × PyStr :=
    if name0 = [] ∧ description0 = [] then
      match ((splitNL e.allText).map stripWS).filter (· ≠ []) with
      | [] => (name0, description0)
      | l1 :: rest =>
        (l1.take 100, match rest with | [] => description0 | l2 :: _ => l2.take 200)
    else (name0, description0)
  if nd.1 = [] then none
  else some ⟨nd.1, url, nd.2, tags, votes⟩

/-- The parsing loop of lines 236–243 over the selected elements: elements
parsing to `None` (or raising — the source's inner `try`/`except` continues)
are skipped, the rest are collected in order. -/
def scrape_webpage (doc : PHWebDoc) : List ProductInfo :=
  (selectProductElements doc).filterMap parse_product_element

/-! ### Product Hunt webpage fixtures -/

/-- A product card element: name "Cool App", a relative link, a tagline and
a "1.2k" vote count. -/
def phCardElem : PHElement :=
  ⟨[some (pys "Cool App"), none, none, none, none],
   some (pys "/posts/cool-app"),
   [some (pys "Does things"), none, none, none],
   [],
   [some (pys "1.2k"), none, none],
   pys "Cool App\nDoes things"⟩

/-- A page where the first three selectors match nothing and the fourth
matches exactly one card. -/
def phDocOneCard : PHWebDoc :=
  ⟨[[], [], [], [phCardElem], [], [], []], []⟩

/-- A page where every selector matches nothing but two `/posts/` link
parents exist. -/
def phDocLinksOnly : PHWebDoc :=
  ⟨[[], [], [], [], [], [], []], [phCardElem, phCardElem]⟩

/-! ## Hacker News scraper model (`scraper/hackernews_scraper.py`) -/

/-- One decoded item of the HN `item/<id>.json` endpoint: the values the
source reads with `data.get(...)`.  The `author` field models the JSON key
`by` (a reserved word in Lean). -/
structure HNItem where
  type : Option PyStr
  title : Option PyStr
  url : Option PyStr
  score : Option ℤ
  descendants : Option ℤ
  time : Option ℤ
  author : Option PyStr
  deriving DecidableEq

/-- News record built by `_get_story_info` (its `content` is filled in by a
later step and starts empty). -/
structure News where
  id : ℤ
  title : PyStr
  url : PyStr
  score : ℤ
  comments : ℤ
  time : ℤ
  author : PyStr
  content : PyStr
  deriving DecidableEq

/-- `HackerNewsScraper._get_story_info`, given the decoded JSON of the item
(`none` for a null/falsy response): `None` unless the item is a story;
otherwise the fields are filled with the `get` defaults of the source
(`data.get('title', '')`, `data.get('score', 0)`, …). -/
def get_story_info (story_id : ℤ) (data : Option HNItem) : Option News :=
  match data with
  | none => none
  | some d =>
    if d.type ≠ some (pys "story") then none
    else
      some { id := story_id
             title := d.title.getD []
             url := d.url.getD []
             score := d.score.getD 0
             comments := d.descendants.getD 0
             time := d.time.getD 0
             author := d.author.getD []
             content := [] }

/-! ### Product Hunt / Hacker News fixtures -/

/-- A story item whose JSON has no `title` key. -/
def storyNoTitle : HNItem :=
  ⟨some (pys "story"), none, none, none, none, none, none⟩

/-- An article none of whose queries find anything (parsing yields `None`). -/
def articleBad : Article :=
  ⟨none, [], none, none, none, none, none, none, none⟩

/-- The repository record parsed from `articleAB`. -/
def repoAB : Repo :=
  { name := pys "a/b", url := pys "https://github.com/a/b", description := [],
    language := pys "Unknown", stars := 0, forks := 0, today_stars := 0, topics := [] }

/-- A concrete post with one vote count. -/
def postP1 : Post := ⟨some (pys "P1"), some (pys "u"), some (pys "d"), some 5⟩

/-- The product record of `postP1`. -/
def productP1 : Product := ⟨pys "P1", pys "u", pys "d", [], 5⟩

/-- An API oracle returning a single final page holding `postP1`. -/
def phApiOnePage : PyStr → PHResp :=
  fun _ => .ok ⟨[postP1], false, []⟩

/-! ## Translator model (`scraper/translator.py`) -/

/-- A decoded chat-completion response body: the `choices` list, each
reduced to its `message.content` string. -/
structure ApiResp where
  choices : List PyStr
  deriving DecidableEq

/-- Behaviour of one `requests.post` to the chat endpoint for a given
prompt: an exception / JSON decode failure (`Except.error`), or a decoded
body. -/
abbrev Transport := PyStr → Except Unit ApiResp

/-- `DeepSeekTranslator._call_deepseek_api`: the first choice's content, or
`""` on any failure (request exception, JSON failure, empty or missing
`choices`). -/
def call_deepseek_api (tr : Transport) (prompt : PyStr) : PyStr :=
  match tr prompt with
  | .error _ => []
  | .ok resp =>
    match resp.choices with
    | [] => []
    | c :: _ => c

/-- The translation prompt of `translate_text` (with the default target
language `中文` of the source). -/
def translate_prompt (text : PyStr) : PyStr :=
  pys "请将以下英文文本翻译成中文，保持专业性和准确性，只翻译原文本身，不要添加任何其他内容，包括翻译说明和策略等：\n\n原文：" ++
    text ++ pys "\n\n翻译："

/-- `DeepSeekTranslator.translate_text`, instrumented with the number of API
calls it makes (second component).  Empty or whitespace-only input returns
unchanged with zero calls; a failed call falls back to the input; the
response is stripped and a leading `翻译：` (3 characters) removed. -/
def translate_text_c (tr : Transport) (text : PyStr) : PyStr × ℕ :=
  if text = [] ∨ stripWS text = [] then (text, 0)
  else
    let response := call_deepseek_api tr (translate_prompt text)
    if response ≠ [] then
      let t := stripWS response
      let t2 := if (pys "翻译：").isPrefixOf t then stripWS (t.drop 3) else t
      (t2, 1)
    else (text, 1)

/-- `translate_text` without the instrumentation. -/
def translate_text (tr : Transport) (text : PyStr) : PyStr :=
  (translate_text_c tr text).1

/-- Python `sep.join(parts)`. -/
def joinSep (sep : PyStr) : List PyStr → PyStr
  | [] => []
  | [x] => x
  | x :: rest => x ++ sep ++ joinSep sep rest

/-- Python `str.replace(pat, '')` for a non-empty pattern: remove every
(leftmost, non-overlapping) occurrence. -/
def pyRemoveAll (pat : PyStr) : PyStr → PyStr
  | [] => []
  | c :: rest =>
    if pat ≠ [] ∧ pat.isPrefixOf (c :: rest) then
      pyRemoveAll pat (rest.drop (pat.length - 1))
    else c :: pyRemoveAll pat rest
  termination_by s => s.length
  decreasing_by
    · simp only [List.length_cons, List.length_drop]
      omega
    · simp only [List.length_cons]
      omega

/-- The prompt of `_generate_enhanced_description`. -/
def enhanced_prompt (description_zh features_text use_cases_zh : PyStr) : PyStr :=
  pys "请从以下信息中提取核心价值点和适用场景：\n\n项目描述：" ++ description_zh ++
    pys "\n\n主要特性：" ++ features_text ++
    pys "\n\n应用场景：" ++ use_cases_zh ++
    pys "\n\n要求：\n1. 核心价值：用1-2句话概括项目的核心价值（20-30字）\n2. 适用场景：列出2-3个主要应用场景，用\"、\"分隔（20-40字）\n3. 语言简洁明了，突出重点\n\n请按以下格式返回：\n核心价值：[核心价值描述]\n适用场景：[适用场景描述]"

/-- `DeepSeekTranslator._generate_enhanced_description`: ask the model,
parse `核心价值：` / `适用场景：` lines (last match wins, the label removed
everywhere in the line and the result stripped), truncate to 30 / 40
characters with a `...` suffix; on a failed call fall back to a description
built from the first two features and a fixed scene list. -/
def generate_enhanced_description (tr : Transport) (description_zh : PyStr)
    (features_zh : List PyStr) (use_cases_zh : PyStr) : PyStr × PyStr :=
  let features_text := joinSep (pys "、") (features_zh.take 3)
  let response := call_deepseek_api tr (enhanced_prompt description_zh features_text use_cases_zh)
  if response ≠ [] then
    let lines := (stripWS response).splitOn '\n'
    let cu := lines.foldl (fun (cu : PyStr × PyStr) line =>
      if (pys "核心价值：").isPrefixOf line then
        (stripWS (pyRemoveAll (pys "核心价值：") line), cu.2)
      else if (pys "适用场景：").isPrefixOf line then
        (cu.1, stripWS (pyRemoveAll (pys "适用场景：") line))
      else cu) ([], [])
    let core_value := if cu.1.length > 30 then cu.1.take 30 ++ pys "..." else cu.1
    let use_cases := if cu.2.length > 40 then cu.2.take 40 ++ pys "..." else cu.2
    (core_value, use_cases)
  else
    (pys "提供" ++ joinSep (pys "、") (features_zh.take 2) ++ pys "等核心功能",
     pys "开发参考、学习研究、项目应用")

/-- The analysis prompt of `analyze_repository_content` (braces of the JSON
schema written with escapes). -/
def analysis_prompt (name description readme : PyStr) : PyStr :=
  pys "请分析以下GitHub项目的内容，提取主要特性和应用场景：\n\n项目名称：" ++ name ++
    pys "\n项目描述：" ++ description ++
    pys "\n\nREADME内容：\n" ++ readme.take 3000 ++
    pys "\n\n请按以下格式返回分析结果（JSON格式）：\n\x7b\n    \"features\": [\"特性1\", \"特性2\", \"特性3\", \"特性4\", \"特性5\"],\n    \"use_cases\": \"应用场景描述（50-100字）\"\n\x7d\n\n要求：\n1. 提取3-5个主要特性，每个特性简洁明了\n2. 应用场景描述控制在50-100字\n3. 只返回JSON格式，不要其他内容"

/-- The translator's environment: the HTTP transport and a model of
`json.loads` restricted to the analysis schema — `some (features,
use_cases)` when the text parses to a JSON object with both keys, `none`
when `json.loads` raises `JSONDecodeError` or a key is missing. -/
structure TEnv where
  transport : Transport
  jsonAnalysis : PyStr → Option (List PyStr × PyStr)

/-- `DeepSeekTranslator.analyze_repository_content`: `None` without README
content, on a failed call, or on an unparsable response; otherwise translate
the features and use cases and derive the enhanced description.  The
returned tuple is `(features, features_zh, use_cases, use_cases_zh,
core_value_zh)`; because the source dict literal repeats the key
`use_cases_zh`, the *enhanced* value wins and the translated one is
discarded. -/
def analyze_repository_content (env : TEnv) (repo : Repo) :
    Option (List PyStr × List PyStr × PyStr × PyStr × PyStr) :=
  if repo.readme_content = [] then none
  else
    let response := call_deepseek_api env.transport
      (analysis_prompt repo.name repo.description repo.readme_content)
    if response ≠ [] then
      match env.jsonAnalysis (stripWS response) with
      | none => none
      | some (features, use_cases) =>
        let features_zh := features.map (translate_text env.transport)
        let use_cases_zh := translate_text env.transport use_cases
        let enhanced := generate_enhanced_description env.transport
          (repo.description_zh.getD []) features_zh use_cases_zh
        some (features, features_zh, use_cases, enhanced.2, enhanced.1)
    else none

/-- The `description_zh` assignment at the top of the per-repository loop of
`translate_repositories`: translate a non-empty description, else `""`. -/
def setDescriptionZh (env : TEnv) (r : Repo) : Repo :=
  if r.description ≠ [] then
    { r with description_zh := some (translate_text env.transport r.description) }
  else { r with description_zh := some [] }

/-- One iteration of `translate_repositories`: set `description_zh`, then —
when README content is present — apply the analysis results if any (a `None`
analysis leaves the record as-is), else reset the enrichment fields to their
defaults.  The 1-second throttle sleep carries no data and is omitted. -/
def translateRepoOne (env : TEnv) (r : Repo) : Repo :=
  let r1 := setDescriptionZh env r
  if r1.readme_content ≠ [] then
    match analyze_repository_content env r1 with
    | some (features, features_zh, use_cases, use_cases_zh, core_value_zh) =>
      { r1 with
        features := features
        features_zh := features_zh
        use_cases := use_cases
        use_cases_zh := use_cases_zh
        core_value_zh := core_value_zh }
    | none => r1
  else
    { r1 with
      features := []
      features_zh := []
      use_cases := []
      use_cases_zh := []
      core_value_zh := [] }

/-- `DeepSeekTranslator.translate_repositories`: the per-record enrichment
applied in order (the per-record `try/except` never fires in this total
model; its fallback also keeps the record). -/
def translate_repositories (env : TEnv) (repos : List Repo) : List Repo :=
  repos.map (translateRepoOne env)

/-- The summarization prompt of `summarize_news_content` (content truncated
to 5000 characters, `无详细内容` when empty). -/
def summarize_prompt (content title : PyStr) : PyStr :=
  pys "请将以下新闻内容翻译并总结成10-120字的中文摘要，要求：\n1. 准确翻译原文内容\n2. 突出核心信息和关键点\n3. 语言流畅自然\n4. 字数控制在10-120字之间\n5. 如果内容较短，请提供更详细的翻译和解释\n\n标题：" ++
    title ++ pys "\n\n内容：" ++
    (if content ≠ [] then content.take 5000 else pys "无详细内容") ++
    pys "\n\n请直接给出中文总结，不要添加任何解释或前缀："

/-- The prefix labels stripped from a summary, in source order. -/
def summaryLabelList : List PyStr :=
  [pys "总结：", pys "摘要：", pys "概括：", pys "翻译：",
   pys "总结", pys "摘要", pys "概括", pys "翻译"]

/-- `DeepSeekTranslator.summarize_news_content`: `暂无内容` when both inputs
are empty; on a successful call, strip the response, remove known label
prefixes, then pad a summary shorter than 10 characters (with the title when
it is longer than 5 characters, else a fixed notice) and truncate one longer
than 120 characters to `summary[:120] + "..."`; on a failed call fall back
to the title plus a notice. -/
def summarize_news_content (tr : Transport) (content title : PyStr) : PyStr :=
  if content = [] ∧ title = [] then pys "暂无内容"
  else
    let response := call_deepseek_api tr (summarize_prompt content title)
    if response ≠ [] then
      let s0 := stripWS response
      let s1 := summaryLabelList.foldl
        (fun s p => if p.isPrefixOf s then stripWS (s.drop p.length) else s) s0
      if s1.length < 10 then
        if title ≠ [] ∧ title.length > 5 then title ++ pys "：" ++ s1
        else s1 ++ pys "（详细内容请查看原文）"
      else if s1.length > 120 then s1.take 120 ++ pys "..."
      else s1
    else
      if title ≠ [] then title ++ pys "（详细内容请查看原文）"
      else pys "内容总结失败"

/-! ### Translator fixtures -/

/-- A transport on which every request fails. -/
def failTransport : Transport := fun _ => .error ()

/-- An environment where every HTTP request fails (e.g. HTTP 500 on every
attempt) and JSON parsing is irrelevant. -/
def failEnv : TEnv := ⟨failTransport, fun _ => none⟩

/-- A transport answering every prompt with a 121-character response. -/
def respLong : Transport := fun _ => .ok ⟨[List.replicate 121 'a']⟩

/-- A transport answering every prompt with a single-space response
(truthy in Python, stripped to nothing). -/
def respBlank : Transport := fun _ => .ok ⟨[pys " "]⟩

/-! ## Markdown generator model (`scraper/markdown_generator.py`) -/

/-- The `strftime` renderings of the run date used by
`_generate_github_markdown_content`: `%Y-%m-%d`, `%Y年%m月%d日`, `%Y`, `%m`. -/
structure DateParts where
  ymd : PyStr
  cn : PyStr
  year : PyStr
  month : PyStr
  deriving DecidableEq

/-- Python `"\n".join(blocks)`. -/
def joinNL : List PyStr → PyStr
  | [] => []
  | [b] => b
  | b :: rest => b ++ '\n' :: joinNL rest

/-- Python `str(n)` for the naturals interpolated into the templates. -/
def natPy (n : ℕ) : PyStr := (toString n).data

/-- Python `str(i)` on an integer. -/
def intPy (i : ℤ) : PyStr := (toString i).data

/-- Python `f"{num / 10**divPow:.1f}"` on the exact value: one decimal digit
obtained by rounding `num * 10 / 10^divPow` (ties in Python are resolved on
the binary double; the rounding convention is irrelevant to the claims,
which never inspect these digits). -/
def formatNum1 (num : ℤ) (divPow : ℕ) : PyStr :=
  let scaled : ℤ := round ((num : ℚ) * 10 / (10 : ℚ) ^ divPow)
  intPy (scaled / 10) ++ pys "." ++ intPy (scaled % 10)

/-- `MarkdownGenerator._format_number`. -/
def format_number (num : ℤ) : PyStr :=
  if num ≥ 1000000 then formatNum1 num 6 ++ pys "M"
  else if num ≥ 1000 then formatNum1 num 3 ++ pys "K"
  else intPy num

/-- One language-count bump of the dict built by `_get_top_languages`
(Python dicts keep insertion order; updating a count keeps the position). -/
def bumpLang (acc : List (PyStr × ℕ)) (l : PyStr) : List (PyStr × ℕ) :=
  if acc.any (fun p => p.1 == l) then
    acc.map (fun p => if p.1 == l then (p.1, p.2 + 1) else p)
  else acc ++ [(l, 1)]

/-- `MarkdownGenerator._get_top_languages`: count languages in first-seen
order, stable-sort by count descending, keep the top three names. -/
def get_top_languages (repos : List Repo) : PyStr :=
  let counts := repos.foldl (fun acc r => bumpLang acc r.language) []
  joinSep (pys ", ")
    (((counts.mergeSort (fun a b => decide (b.2 ≤ a.2))).take 3).map (·.1))

/-- `MarkdownGenerator._generate_repository_section`: the lines of one
repository section, joined with newlines.  (The `language_badge` local of
the source is computed but never interpolated into the output, so it is
omitted.) -/
def generate_repository_section (repo : Repo) (index : ℕ) : PyStr :=
  let stars_str := format_number repo.stars
  let forks_str := format_number repo.forks
  let topics_str := joinSep (pys " ") (repo.topics.map (fun t => pys "`" ++ t ++ pys "`"))
  let base : List PyStr :=
    [pys "## " ++ natPy index ++ pys ". " ++ repo.name,
     [],
     pys "🔗 **项目地址**: [" ++ repo.name ++ pys "](" ++ repo.url ++ pys ")",
     [],
     pys "星标数: " ++ stars_str ++ pys " | Fork数: " ++ forks_str ++
       pys " | 语言: " ++ repo.language,
     [],
     pys "**英文描述**:",
     pys "> " ++ repo.description,
     [],
     pys "**中文翻译**:",
     pys "> " ++ repo.description_zh.getD (pys "暂无中文翻译"),
     []]
  let withTopics :=
    if topics_str ≠ [] then base ++ [pys "### 🏷️ 标签", [], topics_str, []]
    else base
  joinNL (withTopics ++ [pys "---", []])

/-- The front-matter and title lines of the GitHub daily page. -/
def githubHeaderLines (d : DateParts) : List PyStr :=
  [pys "---",
   pys "title: GitHub 每日趋势 - " ++ d.cn,
   pys "description: GitHub " ++ d.cn ++ pys " 热门项目趋势",
   pys "date: " ++ d.ymd,
   pys "tags:",
   pys "  - github",
   pys "  - trending",
   pys "  - " ++ d.year,
   pys "  - " ++ d.month,
   pys "---",
   [],
   pys "# GitHub 每日趋势 - " ++ d.cn,
   []]

/-- The statistics table and link-footer lines of the GitHub daily page. -/
def githubStatsLines (repos : List Repo) : List PyStr :=
  [pys "## 📈 统计信息",
   [],
   pys "| 指标 | 数值 |",
   pys "|------|------|",
   pys "| 总项目数 | " ++ natPy repos.length ++ pys " |",
   pys "| 主要语言 | " ++ get_top_languages repos ++ pys " |",
   [],
   pys "## 🔗 相关链接",
   [],
   pys "- [GitHub Trending](https://github.com/trending) - 官方趋势页面",
   pys "- [历史记录](../) - 查看历史趋势",
   [],
   pys "---",
   [],
   pys "*本页面由自动化工具生成，每日更新*"]

/-- The `enumerate(repositories, 1)` loop: one section per record, numbered
from `i`. -/
def sectionsFrom : ℕ → List Repo → List PyStr
  | _, [] => []
  | i, r :: rs => generate_repository_section r i :: sectionsFrom (i + 1) rs

/-- `MarkdownGenerator._generate_github_markdown_content`: header lines, one
section per repository in input order, then the statistics block, joined
with newlines. -/
def generate_github_markdown_content (repos : List Repo) (d : DateParts) : PyStr :=
  joinNL (githubHeaderLines d ++ sectionsFrom 1 repos ++ githubStatsLines repos)

/-! ### Spec side of claim C9 -/

/-- The numbered `##` header of one section. -/
def sectionHeader (i : ℕ) (r : Repo) : PyStr :=
  pys "## " ++ natPy i ++ pys ". " ++ r.name

/-- The expected ordered list of section headers, numbered from `i`. -/
def headersFrom : ℕ → List Repo → List PyStr
  | _, [] => []
  | i, r :: rs => sectionHeader i r :: headersFrom (i + 1) rs

/-- The statistics row `| 总项目数 | n |`. -/
def totalRow (n : ℕ) : PyStr := pys "| 总项目数 | " ++ natPy n ++ pys " |"

/-- `containsSeq s [t₁, …, tₙ]`: the strings `tᵢ` occur in `s` in this
order, without overlapping. -/
def containsSeq : PyStr → List PyStr → Prop
  | _, [] => True
  | s, t :: ts => ∃ u v, s = u ++ t ++ v ∧ containsSeq v ts

/-- The records scraped from the C9 fixture page. -/
def fixtureRepos : List Repo :=
  (get_trending_repositories (fun _ => Fetched.page fixturePage) 3).repositories

/-- A concrete run date for the fixture render. -/
def dateFixture : DateParts :=
  ⟨pys "2025-01-01", pys "2025年01月01日", pys "2025", pys "01"⟩

/-! ## Supporting lemmas -/

theorem digitsVal_foldl (b : PyStr) (x : ℕ) :
    b.foldl (fun a c => 10 * a + (c.toNat - '0'.toNat)) x =
      x * 10 ^ b.length + digitsVal b := by
  induction b generalizing x with
  | nil => simp [digitsVal]
  | cons c bs ih =>
    simp only [List.foldl_cons, List.length_cons]
    rw [ih]
    have h2 : digitsVal (c :: bs) = (c.toNat - '0'.toNat) * 10 ^ bs.length + digitsVal bs := by
      unfold digitsVal
      rw [List.foldl_cons, ih]
      norm_num
      rfl
    rw [h2]
    ring

theorem digitsVal_append (a b : PyStr) :
    digitsVal (a ++ b) = digitsVal a * 10 ^ b.length + digitsVal b := by
  unfold digitsVal
  rw [List.foldl_append]
  exact digitsVal_foldl b _

theorem takeDigitsUAux_cons (f : ℕ) (c : Char) (rest : PyStr) (hc : c.isDigit = true)
    (hg : ∀ d r2, rest = '_' :: d :: r2 → d.isDigit = false) :
    takeDigitsUAux (f + 1) (c :: rest) =
      (c :: (takeDigitsUAux f rest).1, (takeDigitsUAux f rest).2) := by
  cases rest with
  | nil => simp [takeDigitsUAux, hc]
  | cons u rest2 =>
    cases rest2 with
    | nil => simp [takeDigitsUAux, hc]
    | cons d r2 =>
      by_cases hu : u = '_'
      · subst hu
        have hd := hg d r2 rfl
        simp [takeDigitsUAux, hc, hd]
      · simp [takeDigitsUAux, hc, hu]

theorem takeDigitsUAux_append (ds r : PyStr)
    (h : ∀ x ∈ ds, x.isDigit = true)
    (hr : ∀ c, r.head? = some c → c.isDigit = false ∧ c ≠ '_') :
    ∀ fuel : ℕ, ds.length ≤ fuel → takeDigitsUAux fuel (ds ++ r) = (ds, r) := by
  induction ds with
  | nil =>
    intro fuel _
    cases fuel with
    | zero => rfl
    | succ f =>
      cases r with
      | nil => rfl
      | cons c rest => simp [takeDigitsUAux, (hr c rfl).1]
  | cons a t ih =>
    intro fuel hf
    rw [List.length_cons] at hf
    obtain ⟨f, rfl⟩ : ∃ f, fuel = f + 1 := ⟨fuel - 1, by omega⟩
    have ha : a.isDigit = true := h a (by simp)
    have hf' : t.length ≤ f := by omega
    have hstep : takeDigitsUAux (f + 1) (a :: (t ++ r)) =
        (a :: (takeDigitsUAux f (t ++ r)).1, (takeDigitsUAux f (t ++ r)).2) := by
      apply takeDigitsUAux_cons f a (t ++ r) ha
      intro d r2 heq
      cases t with
      | nil =>
        simp only [List.nil_append] at heq
        exact absurd rfl ((hr '_' (by rw [heq]; rfl)).2)
      | cons b t' =>
        have hb : b.isDigit = true := h b (by simp)
        have hb' : b = '_' := by
          have := congrArg List.head? heq
          simpa using this
        rw [hb'] at hb
        exact absurd hb (by decide)
    rw [List.cons_append, hstep, ih (fun x hx => h x (by simp [hx])) f hf']

theorem takeDigitsU_append (ds r : PyStr)
    (h : ∀ x ∈ ds, x.isDigit = true)
    (hr : ∀ c, r.head? = some c → c.isDigit = false ∧ c ≠ '_') :
    takeDigitsU (ds ++ r) = (ds, r) := by
  unfold takeDigitsU
  exact takeDigitsUAux_append ds r h hr (ds ++ r).length (by simp)

theorem decDigit_facts {ch : Char} (h : ch ∈ decDigits) :
    ch.isDigit = true ∧ ch ≠ 'k' ∧ ch ≠ 'm' ∧ ch ≠ '+' ∧ ch ≠ '-' ∧ ch ≠ '.' ∧
      ch.isWhitespace = false := by
  have hd : decDigits = ['0', '1', '2', '3', '4', '5', '6', '7', '8', '9'] := rfl
  rw [hd] at h
  simp only [List.mem_cons, List.not_mem_nil, or_false] at h
  rcases h with rfl | rfl | rfl | rfl | rfl | rfl | rfl | rfl | rfl | rfl <;> decide

theorem dropWhile_eq_self_of {p : Char → Bool} (l : PyStr) (h : ∀ ch ∈ l, p ch = false) :
    l.dropWhile p = l := by
  cases l with
  | nil => rfl
  | cons c t => simp [List.dropWhile_cons, h c (by simp)]

theorem stripWS_eq_self (l : PyStr) (h : ∀ ch ∈ l, ch.isWhitespace = false) :
    stripWS l = l := by
  unfold stripWS
  rw [dropWhile_eq_self_of l h,
    dropWhile_eq_self_of l.reverse (fun ch hc => h ch (List.mem_reverse.mp hc)),
    List.reverse_reverse]

theorem takeDigitsU_all (l : PyStr) (h : ∀ x ∈ l, x.isDigit = true) :
    takeDigitsU l = (l, []) := by
  have := takeDigitsU_append l [] h (by intro c hc; simp at hc)
  simpa using this

theorem contains_iff_mem (l : PyStr) (c : Char) : l.contains c = true ↔ c ∈ l :=
  List.elem_iff

theorem pyFloatAfterSign_eq (sgn : ℤ) (c : NumLit) (h : c.WF) :
    pyFloatAfterSign sgn (c.ip ++ (if c.dotted then '.' :: c.fp else [])) =
      some ⟨sgn * (digitsVal (c.ip ++ c.fp) : ℤ), -(c.fp.length : ℤ)⟩ := by
  obtain ⟨hip, hfp, hshape, _⟩ := h
  have hipD : ∀ x ∈ c.ip, Char.isDigit x = true := fun x hx => (decDigit_facts (hip x hx)).1
  have hfpD : ∀ x ∈ c.fp, Char.isDigit x = true := fun x hx => (decDigit_facts (hfp x hx)).1
  cases hd : c.dotted with
  | false =>
    rw [hd] at hshape
    obtain ⟨hipne, hfpe⟩ := hshape
    have h1 : takeDigitsU (c.ip ++ []) = (c.ip, []) :=
      takeDigitsU_append c.ip [] hipD (by intro ch hc; simp at hc)
    rw [List.append_nil] at h1
    unfold pyFloatAfterSign
    simp only [Bool.false_eq_true, if_false, List.append_nil, h1, List.head?_nil,
      reduceCtorEq, ite_false]
    rw [if_neg (by simpa [List.isEmpty_iff] using hipne)]
    simp [parseExpPart, hfpe, digitsVal_append]
  | true =>
    rw [hd] at hshape
    have h1 : takeDigitsU (c.ip ++ '.' :: c.fp) = (c.ip, '.' :: c.fp) := by
      apply takeDigitsU_append c.ip _ hipD
      intro ch hc
      simp only [List.head?_cons, Option.some.injEq] at hc
      rw [← hc]
      exact ⟨by decide, by decide⟩
    have h2 : takeDigitsU c.fp = (c.fp, []) := takeDigitsU_all c.fp hfpD
    unfold pyFloatAfterSign
    simp only [if_true, ite_true, h1, List.head?_cons, Option.some.injEq, List.tail_cons, h2]
    rw [if_neg (by
      intro hcon
      rcases hshape with ha | ha <;>
        simp_all [List.isEmpty_iff])]
    simp [parseExpPart, digitsVal_append]

theorem core_no_ws (c : NumLit) (h : c.WF) : ∀ ch ∈ c.core, ch.isWhitespace = false := by
  obtain ⟨hip, hfp, _, _⟩ := h
  intro ch hc
  unfold NumLit.core at hc
  rcases List.mem_append.mp hc with hc1 | hc2
  · rcases List.mem_append.mp hc1 with hs | hi
    · cases hn : c.neg <;> rw [hn] at hs <;> simp_all
    · exact (decDigit_facts (hip ch hi)).2.2.2.2.2.2
  · cases hd : c.dotted <;> rw [hd] at hc2
    · simp at hc2
    · rcases List.mem_cons.mp hc2 with rfl | hf
      · decide
      · exact (decDigit_facts (hfp ch hf)).2.2.2.2.2.2

theorem core_not_k_m (c : NumLit) (h : c.WF) : ∀ ch ∈ c.core, ch ≠ 'k' ∧ ch ≠ 'm' := by
  obtain ⟨hip, hfp, _, _⟩ := h
  intro ch hc
  unfold NumLit.core at hc
  rcases List.mem_append.mp hc with hc1 | hc2
  · rcases List.mem_append.mp hc1 with hs | hi
    · cases hn : c.neg <;> rw [hn] at hs <;> simp_all
    · exact ⟨(decDigit_facts (hip ch hi)).2.1, (decDigit_facts (hip ch hi)).2.2.1⟩
  · cases hd : c.dotted <;> rw [hd] at hc2
    · simp at hc2
    · rcases List.mem_cons.mp hc2 with rfl | hf
      · decide
      · exact ⟨(decDigit_facts (hfp ch hf)).2.1, (decDigit_facts (hfp ch hf)).2.2.1⟩

theorem splitSign_core (c : NumLit) (h : c.WF) :
    splitSign c.core =
      ((if c.neg then -1 else 1 : ℤ), c.ip ++ (if c.dotted then '.' :: c.fp else [])) := by
  obtain ⟨hip, hfp, hshape, _⟩ := h
  unfold NumLit.core
  cases hn : c.neg with
  | true =>
    simp only [if_pos rfl, List.cons_append, List.nil_append]
    simp [splitSign]
  | false =>
    simp only [if_neg Bool.false_ne_true, List.nil_append]
    cases hi : c.ip with
    | nil =>
      cases hd : c.dotted with
      | false =>
        rw [hd, hi] at hshape
        exact absurd rfl hshape.1
      | true =>
        simp only [List.nil_append, if_pos rfl]
        simp [splitSign]
    | cons a t =>
      have ha : a ∈ decDigits := hip a (by rw [hi]; exact List.mem_cons_self a t)
      have h1 : a ≠ '+' := (decDigit_facts ha).2.2.2.1
      have h2 : a ≠ '-' := (decDigit_facts ha).2.2.2.2.1
      simp [splitSign, h1, h2]

theorem pyFloatDec_core (c : NumLit) (h : c.WF) :
    pyFloatDec c.core =
      some ⟨(if c.neg then -1 else 1) * (digitsVal (c.ip ++ c.fp) : ℤ),
        -(c.fp.length : ℤ)⟩ := by
  have h1 := splitSign_core c h
  have h2 := stripWS_eq_self _ (core_no_ws c h)
  simp only [pyFloatDec, h2, h1]
  exact pyFloatAfterSign_eq _ c h

theorem pyFloat_core (c : NumLit) (h : c.WF) :
    pyFloat c.core = some (roundDecB64 c.valueDec) := by
  simp only [pyFloat, pyFloatDec_core c h, Option.map_some']
  rfl

theorem render_contains_k (c : NumLit) (h : c.WF) :
    c.render.contains 'k' = true ↔ c.sfx = 3 := by
  rw [contains_iff_mem]
  unfold NumLit.render
  constructor
  · intro hm
    rcases List.mem_append.mp hm with h1 | h2
    · exact absurd rfl (core_not_k_m c h 'k' h1).1
    · rcases h.2.2.2 with h0 | h3 | h6 <;> simp_all
  · intro h3
    refine List.mem_append.mpr (Or.inr ?_)
    rw [h3]
    simp

theorem render_contains_m (c : NumLit) (h : c.WF) :
    c.render.contains 'm' = true ↔ c.sfx = 6 := by
  rw [contains_iff_mem]
  unfold NumLit.render
  constructor
  · intro hm
    rcases List.mem_append.mp hm with h1 | h2
    · exact absurd rfl (core_not_k_m c h 'm' h1).2
    · rcases h.2.2.2 with h0 | h3 | h6 <;> simp_all
  · intro h6
    refine List.mem_append.mpr (Or.inr ?_)
    rw [h6]
    simp

theorem render_filter_k (c : NumLit) (h : c.WF) (h3 : c.sfx = 3) :
    c.render.filter (· ≠ 'k') = c.core := by
  unfold NumLit.render
  have hsfx : (if (3 : ℕ) = 3 then ['k'] else if (3 : ℕ) = 6 then ['m'] else []) = ['k'] := by
    norm_num
  rw [h3, hsfx, List.filter_append]
  have h1 : c.core.filter (· ≠ 'k') = c.core :=
    List.filter_eq_self.mpr (fun a ha => decide_eq_true (core_not_k_m c h a ha).1)
  have h2 : List.filter (· ≠ 'k') ['k'] = [] := rfl
  rw [h1, h2, List.append_nil]

theorem render_filter_m (c : NumLit) (h : c.WF) (h6 : c.sfx = 6) :
    c.render.filter (· ≠ 'm') = c.core := by
  unfold NumLit.render
  have hsfx : (if (6 : ℕ) = 3 then ['k'] else if (6 : ℕ) = 6 then ['m'] else []) = ['m'] := by
    norm_num
  rw [h6, hsfx, List.filter_append]
  have h1 : c.core.filter (· ≠ 'm') = c.core :=
    List.filter_eq_self.mpr (fun a ha => decide_eq_true (core_not_k_m c h a ha).2)
  have h2 : List.filter (· ≠ 'm') ['m'] = [] := rfl
  rw [h1, h2, List.append_nil]

theorem render_eq_core (c : NumLit) (h0 : c.sfx = 0) : c.render = c.core := by
  unfold NumLit.render
  rw [h0]
  simp

end DayHot

namespace DayHot

/-- **C1** (counterexample to the claim as stated).  The claim says
`_parse_number` returns `round(value * scale)`; on the input "0.6" the
rounded value would be `round(0.6) = 1`, but the code truncates
(`int(float("0.6")) = 0`) and returns 0. -/
theorem parse_number_round_cex :
    parse_number (pys "0.6") = 0 ∧ round ((6 : ℚ) / 10 * 1) = 1 := by
  constructor
  · decide
  · rw [round_eq]
    norm_num

end DayHot

namespace DayHot

/-- **C1** (amended).  For every input string that — after removing commas and
spaces and lowercasing, exactly as `_parse_number` does — reads as a signed
decimal numeral with an optional `k`/`m` suffix, `_parse_number` returns the
truncation toward zero (not the rounding) of `value * scale`, where the scale
is 1 / 1000 / 1000000 according to the suffix; and on every string whose
suffix-stripped text fails float parsing it returns 0.  It never raises: it
is a total function. -/
theorem parse_number_trunc :
    (∀ (c : NumLit) (s : PyStr), c.WF → pyStripLower s = c.render →
      parse_number s = c.resultInt) ∧
    (∀ s : PyStr, pyFloat (stripKM (pyStripLower s)) = none → parse_number s = 0) := by
  constructor
  · intro c s hWF hstrip
    have hcne : c.core ≠ [] := by
      unfold NumLit.core
      intro hc
      rcases List.append_eq_nil.mp hc with ⟨h1, h2⟩
      rcases List.append_eq_nil.mp h1 with ⟨hsgn, hi⟩
      have hshape := hWF.2.2.1
      cases hd : c.dotted
      · rw [hd] at hshape
        simp only [if_neg Bool.false_ne_true] at hshape
        exact hshape.1 hi
      · rw [hd] at h2
        simp at h2
    have hrne : c.render ≠ [] := by
      unfold NumLit.render
      intro hr
      exact hcne (List.append_eq_nil.mp hr).1
    have hsne : s ≠ [] := by
      intro h0
      rw [h0] at hstrip
      exact hrne (by simpa [pyStripLower] using hstrip.symm)
    simp only [parse_number, if_neg hsne]
    rw [hstrip]
    rcases hWF.2.2.2 with h0 | h3 | h6
    · have hk : ¬(c.render.contains 'k' = true) := by
        rw [render_contains_k c hWF, h0]
        omega
      have hm : ¬(c.render.contains 'm' = true) := by
        rw [render_contains_m c hWF, h0]
        omega
      rw [if_neg hk, if_neg hm, render_eq_core c h0, pyFloat_core c hWF]
      unfold NumLit.resultInt
      rw [h0]
      simp [intOfFloat]
    · have hk : c.render.contains 'k' = true := (render_contains_k c hWF).mpr h3
      rw [if_pos hk, render_filter_k c hWF h3, pyFloat_core c hWF]
      unfold NumLit.resultInt
      rw [h3]
      norm_num [intOfFloatScaled]
    · have hk : ¬(c.render.contains 'k' = true) := by
        rw [render_contains_k c hWF, h6]
        omega
      have hm : c.render.contains 'm' = true := (render_contains_m c hWF).mpr h6
      rw [if_neg hk, if_pos hm, render_filter_m c hWF h6, pyFloat_core c hWF]
      unfold NumLit.resultInt
      rw [h6]
      norm_num [intOfFloatScaled]
  · intro s h
    by_cases hs0 : s = []
    · simp [parse_number, hs0]
    · simp only [parse_number, if_neg hs0]
      unfold stripKM at h
      by_cases hk : (pyStripLower s).contains 'k' = true
      · rw [if_pos hk] at h ⊢
        rw [h]
        rfl
      · rw [if_neg hk] at h ⊢
        by_cases hm : (pyStripLower s).contains 'm' = true
        · rw [if_pos hm] at h ⊢
          rw [h]
          rfl
        · rw [if_neg hm] at h ⊢
          rw [h]
          rfl

/-- Witness for **C1**: instantiating `parse_number_trunc` on the concrete
input "1.2K" (value 1.2, suffix `K`) gives 1200, and on the unparsable
input "zzz" gives 0. -/
theorem parse_number_trunc_witness :
    parse_number (pys "1.2K") = 1200 ∧ parse_number (pys "zzz") = 0 := by
  constructor
  · have h := parse_number_trunc.1 ⟨false, pys "1", true, pys "2", 3⟩ (pys "1.2K")
      (by constructor
          · decide
          · constructor
            · decide
            · constructor
              · decide
              · decide)
      (by decide)
    rw [h]
    decide
  · exact parse_number_trunc.2 (pys "zzz") (by decide)

end DayHot

namespace DayHot

/-- Sleep-trace bookkeeping: prepending the sleep of attempt `a` to the
sleeps of attempts `a+1 …` is the sleep trace of `n+1` attempts from `a`. -/
theorem range_pow_shift (a n : ℕ) :
    (2 : ℕ) ^ a :: (List.range n).map (fun i => 2 ^ (a + 1 + i)) =
      (List.range (n + 1)).map (fun i => 2 ^ (a + i)) := by
  rw [List.range_succ_eq_map, List.map_cons, List.map_map]
  have h1 : (2 : ℕ) ^ (a + 0) = 2 ^ a := by rw [Nat.add_zero]
  have h2 : (List.range n).map (fun i => 2 ^ (a + 1 + i)) =
      (List.range n).map ((fun i => 2 ^ (a + i)) ∘ Nat.succ) := by
    apply List.map_congr_left
    intro i _
    simp only [Function.comp_apply]
    congr 1
    omega
  rw [h1, h2]

/-- The retry loop on a fetch oracle that raises on attempts `a … a+N-1` and
delivers a parseable page at attempt `a+N`: it runs `N+1` attempts, returns
the parsed entries, and sleeps `2^attempt` after each failed attempt. -/
theorem ghLoop_success (fetch : ℕ → Fetched) :
    ∀ (N a r : ℕ) (p : Page),
      (∀ i, i < N → fetch (a + i) = .exn) →
      fetch (a + N) = .page p →
      (selectArticles p).filterMap parse_repository_article ≠ [] →
      N + 1 ≤ r →
      get_trending_repositories_loop fetch a r =
        ⟨(selectArticles p).filterMap parse_repository_article, N + 1,
          (List.range N).map (fun i => 2 ^ (a + i))⟩ := by
  intro N
  induction N with
  | zero =>
    intro a r p _ hp hne hr
    obtain ⟨r', rfl⟩ : ∃ r', r = r' + 1 := ⟨r - 1, by omega⟩
    simp only [Nat.add_zero] at hp
    rw [get_trending_repositories_loop]
    simp only [hp]
    have harts : ¬(selectArticles p = []) := by
      intro h0
      apply hne
      rw [h0]
      rfl
    rw [if_neg harts, if_pos hne]
    simp
  | succ n ih =>
    intro a r p hN hp hne hr
    obtain ⟨r', rfl⟩ : ∃ r', r = r' + 1 := ⟨r - 1, by omega⟩
    have h0 : fetch a = .exn := by simpa using hN 0 (by omega)
    rw [get_trending_repositories_loop]
    simp only [h0]
    have hr0 : r' ≠ 0 := by omega
    rw [if_neg hr0]
    have hshift : ∀ i, i < n → fetch (a + 1 + i) = .exn := by
      intro i hi
      have := hN (i + 1) (by omega)
      have hh : a + (i + 1) = a + 1 + i := by omega
      rwa [hh] at this
    have hp' : fetch (a + 1 + n) = .page p := by
      have hh : a + (n + 1) = a + 1 + n := by omega
      rwa [hh] at hp
    rw [ih (a + 1) r' p hshift hp' hne (by omega)]
    simp only [range_pow_shift]

/-- The retry loop on a fetch oracle that raises on all attempts `a … a+r-1`:
it runs all `r` attempts, returns `[]`, and sleeps after each attempt but
the last. -/
theorem ghLoop_all_exn (fetch : ℕ → Fetched) :
    ∀ (r a : ℕ), (∀ i, i < r → fetch (a + i) = .exn) →
      get_trending_repositories_loop fetch a r =
        ⟨[], r, (List.range (r - 1)).map (fun i => 2 ^ (a + i))⟩ := by
  intro r
  induction r with
  | zero =>
    intro a _
    rw [get_trending_repositories_loop]
    simp
  | succ n ih =>
    intro a hN
    have h0 : fetch a = .exn := by simpa using hN 0 (by omega)
    rw [get_trending_repositories_loop]
    simp only [h0]
    by_cases hn0 : n = 0
    · subst hn0
      rw [if_pos rfl]
      simp
    · rw [if_neg hn0]
      rw [ih (a + 1) (fun i hi => by
        have := hN (i + 1) (by omega)
        have hh : a + (i + 1) = a + 1 + i := by omega
        rwa [hh] at this)]
      obtain ⟨m, rfl⟩ : ∃ m, n = m + 1 := ⟨n - 1, by omega⟩
      simp only [Nat.add_sub_cancel, range_pow_shift]

/-- **C2**.  For every fetch oracle that raises on its first `N` attempts and
succeeds (yields a page whose entries parse to a non-empty list) on attempt
`N+1`, with `N+1 ≤ max_retries`, `get_trending_repositories` makes exactly
`N+1` attempts, returns the parsed result, and sleeps `2^attempt` seconds
between consecutive attempts; if all `max_retries` attempts raise, it makes
all of them, returns `[]` (it is a total function, so it never raises), and
the sleeps are again `2^attempt` between consecutive attempts. -/
theorem get_trending_retry :
    (∀ (fetch : ℕ → Fetched) (N max_retries : ℕ) (p : Page),
      (∀ i, i < N → fetch i = .exn) →
      fetch N = .page p →
      (selectArticles p).filterMap parse_repository_article ≠ [] →
      N + 1 ≤ max_retries →
      get_trending_repositories fetch max_retries =
        ⟨(selectArticles p).filterMap parse_repository_article, N + 1,
          (List.range N).map (fun i => 2 ^ i)⟩) ∧
    (∀ (fetch : ℕ → Fetched) (max_retries : ℕ),
      (∀ i, i < max_retries → fetch i = .exn) →
      get_trending_repositories fetch max_retries =
        ⟨[], max_retries, (List.range (max_retries - 1)).map (fun i => 2 ^ i)⟩) := by
  constructor
  · intro fetch N max_retries p hN hp hne hmax
    unfold get_trending_repositories
    rw [ghLoop_success fetch N 0 max_retries p (by simpa using hN) (by simpa using hp) hne hmax]
    simp
  · intro fetch max_retries hN
    unfold get_trending_repositories
    rw [ghLoop_all_exn fetch max_retries 0 (by simpa using hN)]
    simp

/-- Witness for **C2**: with the oracle that fails twice and then returns the
fixture page, three attempts run with sleeps `[1, 2]`; with the oracle that
always raises and `max_retries = 3`, all three attempts run, `[]` comes back
and the sleeps are `[1, 2]`. -/
theorem get_trending_retry_witness :
    get_trending_repositories fetchFailTwice 3 =
      ⟨(selectArticles fixturePage).filterMap parse_repository_article, 3, [1, 2]⟩ ∧
    get_trending_repositories (fun _ => Fetched.exn) 3 = ⟨[], 3, [1, 2]⟩ := by
  constructor
  · exact (get_trending_retry.1 fetchFailTwice 2 3 fixturePage
      (by intro i hi; interval_cases i <;> decide) (by decide) (by decide)
      (by omega)).trans (by decide)
  · exact (get_trending_retry.2 (fun _ => Fetched.exn) 3
      (fun i _ => rfl)).trans (by decide)

end DayHot

namespace DayHot

/-- **C3** (counterexample to the claim as stated).  The claim says a
candidate selector's matches are accepted only when they number at least 5;
but on a GitHub page where the primary selector matches nothing and the
`div.Box-row` fallback matches exactly one element, the scraper accepts the
fallback and returns the single parsed entry; likewise on a Product Hunt
page where the first three selectors of the `_scrape_webpage` cascade match
nothing and the fourth matches exactly one card, that card is accepted
(`if elements:`, line 218) and its parsed product is returned. -/
theorem selector_threshold_cex :
    (get_trending_repositories (fun _ => Fetched.page pageOneDiv) 3).repositories.length = 1 ∧
    pageOneDiv.boxRowArticles = [] ∧
    pageOneDiv.boxRowDivs.length = 1 ∧ ¬(5 ≤ pageOneDiv.boxRowDivs.length) ∧
    phDocOneCard.selectorResults.map List.length = [0, 0, 0, 1, 0, 0, 0] ∧
    ¬(5 ≤ (selectProductElements phDocOneCard).length) ∧
    scrape_webpage phDocOneCard =
      [⟨pys "Cool App", pys "https://www.producthunt.com/posts/cool-app",
        pys "Does things", [], 1200⟩] := by
  refine ⟨by decide, by decide, by decide, by decide, by decide, by decide, by decide⟩

/-- **C3** (amended).  The cascade of `get_trending_repositories` tries its
ordered selectors and accepts the first selector with a *non-empty* match
list (threshold 1, not 5); in particular, when the primary selector matches
zero elements and the fallback matches at least one — so in particular at
least five — the scraper returns the entries parsed from the fallback's
matches.  The selector cascade of the Product Hunt `_scrape_webpage` behaves
the same way: the first selector whose match list is non-empty wins, its
matches (truncated to ten) are parsed, and only when every selector matched
nothing does the `/posts/`-link parent fallback supply the elements. -/
theorem selector_fallback :
    (∀ p : Page, p.boxRowArticles = [] → p.boxRowDivs ≠ [] →
      selectArticles p = p.boxRowDivs) ∧
    (∀ (fetch : ℕ → Fetched) (p : Page) (max_retries : ℕ),
      fetch 0 = .page p →
      p.boxRowArticles = [] →
      p.boxRowDivs ≠ [] →
      p.boxRowDivs.filterMap parse_repository_article ≠ [] →
      1 ≤ max_retries →
      (get_trending_repositories fetch max_retries).repositories =
        p.boxRowDivs.filterMap parse_repository_article) ∧
    (∀ (doc : PHWebDoc) (pre post : List (List PHElement)) (l : List PHElement),
      doc.selectorResults = pre ++ l :: post →
      (∀ x ∈ pre, x = []) →
      l ≠ [] →
      selectProductElements doc = l.take 10 ∧
      scrape_webpage doc = (l.take 10).filterMap parse_product_element) ∧
    (∀ doc : PHWebDoc, (∀ x ∈ doc.selectorResults, x = []) →
      selectProductElements doc = doc.linkParents.take 10) := by
  have hsel : ∀ p : Page, p.boxRowArticles = [] → p.boxRowDivs ≠ [] →
      selectArticles p = p.boxRowDivs := by
    intro p h1 h2
    unfold selectArticles
    rw [h1]
    simp [h2]
  have hhit : ∀ (pre post : List (List PHElement)) (l : List PHElement),
      (∀ x ∈ pre, x = []) → l ≠ [] →
      firstSelHit (pre ++ l :: post) = l.take 10 := by
    intro pre post l hpre hl
    induction pre with
    | nil => simp [firstSelHit, hl]
    | cons a t ih =>
      have ha : a = [] := hpre a (by simp)
      simp only [List.cons_append, firstSelHit, ha, if_pos rfl]
      exact ih (fun x hx => hpre x (by simp [hx]))

  have hempty : ∀ ls : List (List PHElement), (∀ x ∈ ls, x = []) →
      firstSelHit ls = [] := by
    intro ls hls
    induction ls with
    | nil => rfl
    | cons a t ih =>
      have ha : a = [] := hls a (by simp)
      simp only [firstSelHit, ha, if_pos rfl]
      exact ih (fun x hx => hls x (by simp [hx]))

  refine ⟨hsel, ?_, ?_, ?_⟩
  · intro fetch p max_retries hf hprim hfall hne hmax
    obtain ⟨r, rfl⟩ : ∃ r, max_retries = r + 1 := ⟨max_retries - 1, by omega⟩
    unfold get_trending_repositories
    rw [get_trending_repositories_loop]
    simp only [hf]
    rw [hsel p hprim hfall]
    rw [if_neg hfall, if_pos hne]
  · intro doc pre post l hres hpre hl
    have htake : l.take 10 ≠ [] := by
      cases l with
      | nil => exact absurd rfl hl
      | cons a t => simp
    have h1 : selectProductElements doc = l.take 10 := by
      unfold selectProductElements
      rw [hres, hhit pre post l hpre hl, if_neg htake]
    exact ⟨h1, by unfold scrape_webpage; rw [h1]⟩
  · intro doc hall
    unfold selectProductElements
    rw [hempty doc.selectorResults hall, if_pos rfl]

/-- Witness for **C3**: on the five-element GitHub fallback fixture, the
cascade selects the fallback list and the scraper returns its parsed
entries; on the Product Hunt fixture whose fourth selector alone matches,
the cascade selects that match, and on the fixture where no selector
matches, the link-parent fallback supplies the elements. -/
theorem selector_fallback_witness :
    selectArticles pageFiveDivs = pageFiveDivs.boxRowDivs ∧
    (get_trending_repositories (fun _ => Fetched.page pageFiveDivs) 3).repositories =
      pageFiveDivs.boxRowDivs.filterMap parse_repository_article ∧
    selectProductElements phDocOneCard = [phCardElem] ∧
    selectProductElements phDocLinksOnly = phDocLinksOnly.linkParents.take 10 := by
  refine ⟨?_, ?_, ?_, ?_⟩
  · exact selector_fallback.1 pageFiveDivs rfl (by decide)
  · exact selector_fallback.2.1 (fun _ => Fetched.page pageFiveDivs) pageFiveDivs 3
      rfl rfl (by decide) (by decide) (by omega)
  · exact ((selector_fallback.2.2.1 phDocOneCard [[], [], []] [[], [], []] [phCardElem]
      rfl (by decide) (by decide)).1).trans (by decide)
  · exact selector_fallback.2.2.2 phDocLinksOnly (by decide)

end DayHot

namespace DayHot

/-- `Option (Except ...)` double-map fusion used below. -/
theorem optExcept_map_map (o : Option (Except Unit (List Post)))
    (f g : List Post → List Post) :
    (o.map (Except.map g)).map (Except.map f) =
      o.map (Except.map (fun l => f (g l))) := by
  cases o with
  | none => rfl
  | some e => cases e <;> rfl

/-- The accumulator loop of `_fetch_from_api` follows the cursor chain:
with the invariant `acc.length < 30` still allowing an iteration, the loop
equals the collected chain prefixed by the accumulator. -/
theorem phLoop_eq_chain (api : PyStr → PHResp) :
    ∀ (fuel : ℕ) (acc : List Post) (cursor : PyStr),
      acc.length < 30 →
      phLoop api fuel acc true cursor =
        (phChain api fuel cursor acc.length).map
          (Except.map (fun rest => acc ++ rest)) := by
  intro fuel
  induction fuel with
  | zero =>
    intro acc cursor h
    rw [phLoop, phChain]
    rw [if_pos ⟨rfl, h⟩]
    rfl
  | succ f ih =>
    intro acc cursor h
    rw [phLoop, phChain]
    rw [if_pos ⟨rfl, h⟩]
    cases hapi : api cursor with
    | exn => rfl
    | malformed => rfl
    | ok p =>
      dsimp only
      have hstopF : ∀ (f' : ℕ) (acc' : List Post) (c' : PyStr),
          phLoop api f' acc' false c' = some (.ok acc') := by
        intro f' acc' c'
        cases f' <;> simp [phLoop]
      cases hnext : p.hasNextPage with
      | false =>
        rw [hstopF]
        rw [if_neg (by simp)]
        rfl
      | true =>
        by_cases h30 : acc.length + p.nodes.length < 30
        · rw [ih (acc ++ p.nodes) p.endCursor (by simpa using h30)]
          rw [if_pos ⟨rfl, h30⟩]
          rw [optExcept_map_map]
          simp [List.length_append]
        · have hstop30 : ∀ (f' : ℕ) (acc' : List Post) (c' : PyStr),
              ¬(acc'.length < 30) →
              phLoop api f' acc' true c' = some (.ok acc') := by
            intro f' acc' c' hlen
            cases f' <;> simp [phLoop, hlen]
          rw [hstop30 f (acc ++ p.nodes) p.endCursor (by simpa using h30)]
          rw [if_neg (by simpa using h30)]
          rfl

/-- **C6**.  `_fetch_from_api` (given a token) requests successive pages
along the cursor chain until the API signals no next page or the accumulated
post count reaches the ceiling of 30 — the chain-following loop restated as
`phChain` — then stable-sorts all accumulated posts by vote count in
descending order, truncates to the first 10, and converts (dropping unnamed
posts); the sorted list is pairwise descending in votes, and at most 10
products are returned. -/
theorem fetch_from_api_pagination :
    (∀ (api : PyStr → PHResp) (fuel : ℕ),
      fetch_from_api true api fuel =
        (phChain api fuel [] 0).map (Except.map (fun allPosts =>
          ((allPosts.mergeSort votesDesc).take 10).filterMap postToProduct))) ∧
    (∀ posts : List Post,
      (posts.mergeSort votesDesc).Pairwise (fun a b => votesDesc a b = true)) ∧
    (∀ (api : PyStr → PHResp) (fuel : ℕ) (l : List Product),
      fetch_from_api true api fuel = some (.ok l) → l.length ≤ 10) := by
  refine ⟨?_, ?_, ?_⟩
  · intro api fuel
    unfold fetch_from_api
    rw [if_neg (by simp)]
    rw [phLoop_eq_chain api fuel [] [] (by simp)]
    simp [optExcept_map_map]
    congr 1
    funext e
    cases e <;> rfl
  · intro posts
    exact List.sorted_mergeSort
      (by
        intro a b c hab hbc
        simp only [votesDesc, decide_eq_true_eq] at *
        omega)
      (by
        intro a b
        simp only [votesDesc, Bool.or_eq_true, decide_eq_true_eq]
        omega)
      posts
  · intro api fuel l h
    unfold fetch_from_api at h
    rw [if_neg (by simp)] at h
    cases hl : phLoop api fuel [] true [] with
    | none => rw [hl] at h; cases h
    | some e =>
      rw [hl] at h
      cases e with
      | error u => cases h
      | ok posts =>
        simp only [Option.map_some', Except.map] at h
        have : l = ((posts.mergeSort votesDesc).take 10).filterMap postToProduct := by
          cases h
          rfl
        rw [this]
        calc (((posts.mergeSort votesDesc).take 10).filterMap postToProduct).length
            ≤ ((posts.mergeSort votesDesc).take 10).length := List.length_filterMap_le _ _
          _ ≤ 10 := List.length_take_le _ _

end DayHot

namespace DayHot

/-- Evaluation of the API fetch on the single-page oracle (the sort of a
one-element list is itself). -/
theorem fetch_one_page_eval :
    fetch_from_api true phApiOnePage 1 = some (.ok [productP1]) := by
  have hloop : phLoop phApiOnePage 1 [] true [] = some (.ok [postP1]) := rfl
  unfold fetch_from_api
  rw [if_neg (by simp), hloop]
  simp only [Option.map_some', Except.map]
  simp [List.mergeSort_singleton]
  decide

/-- Witness for **C6**: on the one-page oracle, the fetch returns the single
product and the bound of part 3 applies. -/
theorem fetch_from_api_pagination_witness :
    fetch_from_api true phApiOnePage 1 = some (.ok [productP1]) ∧
    ([productP1] : List Product).length ≤ 10 :=
  ⟨fetch_one_page_eval,
   fetch_from_api_pagination.2.2 phApiOnePage 1 [productP1] fetch_one_page_eval⟩

/-- **C10**.  `get_trending_products` either returns the API's top-10 list
(the first ten of the sorted products, when non-empty) or `[]`: whenever
`_fetch_from_api` raises (including the no-token case) or yields no
products, the result is `[]` and no exception escapes.  The dead
webpage-scrape and mock-product code paths do not occur in the case split:
the result is fully determined by the `_fetch_from_api` outcome. -/
theorem get_trending_products_total :
    (∀ (hasToken : Bool) (api : PyStr → PHResp) (fuel : ℕ) (r : List Product),
      get_trending_products hasToken api fuel = some r →
      (∃ l, fetch_from_api hasToken api fuel = some (.ok l) ∧ l ≠ [] ∧ r = l.take 10) ∨
        r = []) ∧
    (∀ (hasToken : Bool) (api : PyStr → PHResp) (fuel : ℕ) (e : Unit),
      fetch_from_api hasToken api fuel = some (.error e) →
      get_trending_products hasToken api fuel = some []) ∧
    (∀ (hasToken : Bool) (api : PyStr → PHResp) (fuel : ℕ),
      fetch_from_api hasToken api fuel = some (.ok []) →
      get_trending_products hasToken api fuel = some []) := by
  refine ⟨?_, ?_, ?_⟩
  · intro hasToken api fuel r h
    unfold get_trending_products at h
    cases hf : fetch_from_api hasToken api fuel with
    | none =>
      rw [hf] at h
      exact Option.noConfusion h
    | some e =>
      rw [hf] at h
      cases e with
      | error u =>
        right
        dsimp only at h
        simpa using h.symm
      | ok products =>
        dsimp only at h
        by_cases hp : products = []
        · right
          rw [if_neg (not_not_intro hp)] at h
          simpa using h.symm
        · left
          rw [if_pos hp] at h
          exact ⟨products, rfl, hp, by simpa using h.symm⟩
  · intro hasToken api fuel e h
    unfold get_trending_products
    rw [h]
  · intro hasToken api fuel h
    unfold get_trending_products
    rw [h]
    rfl

/-- Witness for **C10**: without a token the entry point returns `some []`
(exception path), and on the one-page oracle the returned singleton is the
API top-10 list. -/
theorem get_trending_products_total_witness :
    get_trending_products false phApiOnePage 1 = some [] ∧
    ((∃ l, fetch_from_api true phApiOnePage 1 = some (.ok l) ∧ l ≠ [] ∧
        [productP1] = l.take 10) ∨ ([productP1] : List Product) = []) := by
  constructor
  · exact get_trending_products_total.2.1 false phApiOnePage 1 () rfl
  · apply get_trending_products_total.1 true phApiOnePage 1 [productP1]
    unfold get_trending_products
    rw [fetch_one_page_eval]
    simp

/-- **C7** (counterexample to the claim as stated).  A Hacker News item of
type `story` whose JSON lacks a `title` key is *retained*:
`_get_story_info` returns a record whose title is the empty string rather
than dropping the entry. -/
theorem hn_story_title_cex :
    get_story_info 1 (some storyNoTitle) = some ⟨1, [], [], 0, 0, 0, [], []⟩ ∧
    (⟨1, [], [], 0, 0, 0, [], []⟩ : News).title = [] := by
  exact ⟨by decide, rfl⟩

/-- **C7** (amended).  Every record retained by the GitHub scraper and by
the Product Hunt API path has a non-empty name — an entry whose parsing
fails or yields no name becomes `None`/is not appended — and dropping one
entry leaves the rest of the batch intact (the batch is a `filterMap`, so a
failing entry splits out of it).  The Hacker News scraper, by contrast,
retains a story record whose title is the item's `title` value, which may be
empty (see the counterexample). -/
theorem retained_name_nonempty :
    (∀ (a : Article) (r : Repo), parse_repository_article a = some r → r.name ≠ []) ∧
    (∀ (post : Post) (p : Product), postToProduct post = some p → p.name ≠ []) ∧
    (∀ (arts₁ arts₂ : List Article) (a : Article),
      parse_repository_article a = none →
      (arts₁ ++ a :: arts₂).filterMap parse_repository_article =
        arts₁.filterMap parse_repository_article ++
          arts₂.filterMap parse_repository_article) := by
  refine ⟨?_, ?_, ?_⟩
  · intro a r h
    unfold parse_repository_article at h
    cases hh : repoHref a with
    | none =>
      rw [hh] at h
      exact Option.noConfusion h
    | some h' =>
      simp only [hh] at h
      by_cases hs : stripSlashes h' = []
      · rw [if_pos hs] at h
        cases h
      · rw [if_neg hs] at h
        injection h with h2
        rw [← h2]
        exact hs
  · intro post p h
    simp only [postToProduct] at h
    by_cases hn : post.name.getD [] = []
    · rw [if_neg (not_not_intro hn)] at h
      cases h
    · rw [if_pos hn] at h
      injection h with h2
      rw [← h2]
      exact hn
  · intro arts₁ arts₂ a h
    simp [List.filterMap_append, List.filterMap_cons, h]

/-- Witness for **C7**: the fixture article parses to a non-empty name, the
fixture post converts to a non-empty name, and a failing entry in the middle
of a batch drops out without affecting its neighbours. -/
theorem retained_name_nonempty_witness :
    repoAB.name ≠ [] ∧ productP1.name ≠ [] ∧
    ([articleAB] ++ articleBad :: [articleAB]).filterMap parse_repository_article =
      [articleAB].filterMap parse_repository_article ++
        [articleAB].filterMap parse_repository_article := by
  refine ⟨retained_name_nonempty.1 articleAB repoAB (by decide),
          retained_name_nonempty.2.1 postP1 productP1 (by decide),
          retained_name_nonempty.2.2 [articleAB] [articleAB] articleBad (by decide)⟩

end DayHot

namespace DayHot

/-- **C8**.  `translate_text` on an empty or whitespace-only input returns
the input unchanged and performs zero API calls (the instrumented version
records the number of calls actually issued). -/
theorem translate_text_empty_no_call :
    ∀ (tr : Transport) (text : PyStr), stripWS text = [] →
      translate_text_c tr text = (text, 0) := by
  intro tr text h
  unfold translate_text_c
  rw [if_pos (Or.inr h)]

/-- Witness for **C8**: the empty string and a two-space string come back
unchanged with zero API calls, even against a transport that would answer. -/
theorem translate_text_empty_no_call_witness :
    translate_text_c failTransport [] = ([], 0) ∧
    translate_text_c respLong (pys "  ") = (pys "  ", 0) :=
  ⟨translate_text_empty_no_call failTransport [] (by decide),
   translate_text_empty_no_call respLong (pys "  ") (by decide)⟩

/-- With a transport on which every request fails, `_call_deepseek_api`
returns the empty string for every prompt. -/
theorem call_deepseek_api_fail (tr : Transport) (h : ∀ p, tr p = .error ())
    (prompt : PyStr) : call_deepseek_api tr prompt = [] := by
  unfold call_deepseek_api
  rw [h prompt]

/-- With a failing transport, `translate_text` returns its input. -/
theorem translate_text_fail (tr : Transport) (h : ∀ p, tr p = .error ())
    (text : PyStr) : translate_text tr text = text := by
  unfold translate_text translate_text_c
  by_cases h0 : text = [] ∨ stripWS text = []
  · rw [if_pos h0]
  · rw [if_neg h0]
    rw [call_deepseek_api_fail tr h]
    simp

/-- With a failing transport, one enrichment step keeps the record's name
and description and writes the original description into `description_zh`. -/
theorem translateRepoOne_fail (env : TEnv) (h : ∀ p, env.transport p = .error ())
    (r : Repo) :
    (translateRepoOne env r).name = r.name ∧
    (translateRepoOne env r).description = r.description ∧
    (translateRepoOne env r).description_zh = some r.description := by
  have hset : (setDescriptionZh env r).name = r.name ∧
      (setDescriptionZh env r).description = r.description ∧
      (setDescriptionZh env r).description_zh = some r.description := by
    unfold setDescriptionZh
    by_cases hd : r.description = []
    · rw [if_neg (not_not_intro hd)]
      exact ⟨rfl, rfl, by rw [hd]⟩
    · rw [if_pos hd]
      refine ⟨rfl, rfl, ?_⟩
      simp [translate_text_fail env.transport h]
  simp only [translateRepoOne]
  by_cases hrm : (setDescriptionZh env r).readme_content ≠ []
  · rw [if_pos hrm]
    cases han : analyze_repository_content env (setDescriptionZh env r) with
    | none => exact ⟨hset.1, hset.2.1, hset.2.2⟩
    | some tup =>
      obtain ⟨f1, f2, f3, f4, f5⟩ := tup
      dsimp only
      exact ⟨hset.1, hset.2.1, hset.2.2⟩
  · rw [if_neg hrm]
    exact ⟨hset.1, hset.2.1, hset.2.2⟩

/-- **C4**.  When every HTTP request of the translation backend fails,
`translate_repositories` returns the records in the same order with the same
names and descriptions, and with `description_zh` equal to each record's
original description (the empty string when the description is empty or
absent); it is a total function, so no exception escapes. -/
theorem translate_repositories_fallback :
    ∀ (env : TEnv) (repos : List Repo),
      (∀ p, env.transport p = .error ()) →
      (translate_repositories env repos).map (·.name) = repos.map (·.name) ∧
      (translate_repositories env repos).map (·.description) =
        repos.map (·.description) ∧
      (translate_repositories env repos).map (·.description_zh) =
        repos.map (fun r => some r.description) := by
  intro env repos h
  unfold translate_repositories
  rw [List.map_map, List.map_map, List.map_map]
  exact ⟨List.map_congr_left (fun r _ => (translateRepoOne_fail env h r).1),
         List.map_congr_left (fun r _ => (translateRepoOne_fail env h r).2.1),
         List.map_congr_left (fun r _ => (translateRepoOne_fail env h r).2.2)⟩

/-- Witness for **C4**: on the fixture record with an all-failing backend,
the name survives and `description_zh` is the (empty) original
description. -/
theorem translate_repositories_fallback_witness :
    (translate_repositories failEnv [repoAB]).map (·.name) = [pys "a/b"] ∧
    (translate_repositories failEnv [repoAB]).map (·.description_zh) = [some []] := by
  have h := translate_repositories_fallback failEnv [repoAB] (fun p => rfl)
  exact ⟨h.1.trans (by decide), h.2.2.trans (by decide)⟩

set_option maxRecDepth 8000 in
/-- **C5** (code bug).  `summarize_news_content` does *not* keep its output
inside the documented 10–120 character window: a successful 121-character
response is truncated to `summary[:120] + "..."`, which is 123 characters;
and with a title of 6 characters and a whitespace response the title-padded
output has 7 characters, under the lower bound.  (The function's own
docstring and inline comment promise 10–120.) -/
theorem summarize_window_bug :
    (summarize_news_content respLong (pys "x") []).length = 123 ∧
    summarize_news_content respLong (pys "x") [] =
      List.replicate 120 'a' ++ pys "..." ∧
    (summarize_news_content respBlank (pys "x") (pys "abcdef")).length = 7 := by
  refine ⟨by decide, by decide, by decide⟩

end DayHot

namespace DayHot

theorem joinNL_cons (b : PyStr) (l : List PyStr) (h : l ≠ []) :
    joinNL (b :: l) = b ++ '\n' :: joinNL l := by
  cases l with
  | nil => exact absurd rfl h
  | cons c t => rfl

theorem joinNL_append (l₁ l₂ : List PyStr) (h₁ : l₁ ≠ []) (h₂ : l₂ ≠ []) :
    joinNL (l₁ ++ l₂) = joinNL l₁ ++ '\n' :: joinNL l₂ := by
  induction l₁ with
  | nil => exact absurd rfl h₁
  | cons b t ih =>
    cases t with
    | nil =>
      rw [List.cons_append, List.nil_append, joinNL_cons b l₂ h₂]
      rfl
    | cons c t2 =>
      rw [List.cons_append, joinNL_cons b ((c :: t2) ++ l₂) (by simp),
        ih (by simp), joinNL_cons b (c :: t2) (by simp)]
      simp [List.append_assoc]

theorem containsSeq_prepend (a s : PyStr) (ts : List PyStr)
    (h : containsSeq s ts) : containsSeq (a ++ s) ts := by
  cases ts with
  | nil => exact trivial
  | cons t rest =>
    obtain ⟨u, v, huv, hrest⟩ := h
    exact ⟨a ++ u, v, by rw [huv]; simp [List.append_assoc], hrest⟩

theorem section_head (r : Repo) (i : ℕ) :
    ∃ rest, generate_repository_section r i = sectionHeader i r ++ rest := by
  simp only [generate_repository_section]
  by_cases hc : joinSep (pys " ") (r.topics.map (fun t => pys "`" ++ t ++ pys "`")) = []
  · rw [if_neg (not_not_intro hc)]
    rw [List.cons_append, joinNL_cons _ _ (by simp)]
    exact ⟨_, rfl⟩
  · rw [if_pos hc]
    rw [List.cons_append, List.cons_append, joinNL_cons _ _ (by simp)]
    exact ⟨_, rfl⟩

theorem sections_contains : ∀ (repos : List Repo) (k : ℕ) (tail : PyStr),
    containsSeq (joinNL (sectionsFrom k repos) ++ tail) (headersFrom k repos) := by
  intro repos
  induction repos with
  | nil => intro k tail; exact trivial
  | cons r rs ih =>
    intro k tail
    show containsSeq
      (joinNL (generate_repository_section r k :: sectionsFrom (k + 1) rs) ++ tail)
      (sectionHeader k r :: headersFrom (k + 1) rs)
    obtain ⟨rest, hsec⟩ := section_head r k
    cases rs with
    | nil =>
      refine ⟨[], rest ++ tail, ?_, trivial⟩
      show joinNL [generate_repository_section r k] ++ tail = _
      rw [show joinNL [generate_repository_section r k] =
        generate_repository_section r k from rfl, hsec]
      simp [List.append_assoc]
    | cons r2 rs2 =>
      have hne : sectionsFrom (k + 1) (r2 :: rs2) ≠ [] := by
        show generate_repository_section r2 (k + 1) ::
          sectionsFrom (k + 2) rs2 ≠ []
        simp
      rw [joinNL_cons _ _ hne]
      refine ⟨[], rest ++ '\n' ::
        (joinNL (sectionsFrom (k + 1) (r2 :: rs2)) ++ tail), ?_, ?_⟩
      · rw [hsec]
        simp [List.append_assoc]
      · have h2 := ih (k + 1) tail
        have h3 := containsSeq_prepend (rest ++ ['\n']) _ _ h2
        simpa [List.append_assoc] using h3

theorem joinNL_mem (x : PyStr) (l : List PyStr) (h : x ∈ l) :
    ∃ u v, joinNL l = u ++ x ++ v := by
  induction l with
  | nil => simp at h
  | cons a t ih =>
    rcases List.mem_cons.mp h with rfl | hx
    · cases t with
      | nil => exact ⟨[], [], by simp [joinNL]⟩
      | cons c t2 =>
        refine ⟨[], '\n' :: joinNL (c :: t2), ?_⟩
        rw [joinNL_cons _ _ (by simp)]
        simp
    · have hne : t ≠ [] := by
        intro h0
        rw [h0] at hx
        simp at hx
      obtain ⟨u, v, huv⟩ := ih hx
      refine ⟨a ++ '\n' :: u, v, ?_⟩
      rw [joinNL_cons _ _ hne, huv]
      simp [List.append_assoc]

end DayHot

namespace DayHot

set_option maxRecDepth 8000 in
/-- **C9**.  On the three-entry fixture page (`a/b` with `1.2k` stars, `c/d`
with `3,400`, `e/f` with `500`) the scraper returns the records in source
order with stars `[1200, 3400, 500]`; in general the rendered GitHub
Markdown document contains one numbered `##` section header per input record
in input order and a statistics row `| 总项目数 | n |` with `n` the length
of the record list — in particular, rendering the fixture records yields the
headers `## 1. a/b`, `## 2. c/d`, `## 3. e/f` in that order and the row
`| 总项目数 | 3 |`. -/
theorem github_markdown_render :
    (fixtureRepos.map (·.name) = [pys "a/b", pys "c/d", pys "e/f"] ∧
     fixtureRepos.map (·.stars) = [1200, 3400, 500]) ∧
    (∀ (repos : List Repo) (d : DateParts),
      containsSeq (generate_github_markdown_content repos d) (headersFrom 1 repos) ∧
      ∃ u v, generate_github_markdown_content repos d =
        u ++ totalRow repos.length ++ v) ∧
    (containsSeq (generate_github_markdown_content fixtureRepos dateFixture)
      [pys "## 1. a/b", pys "## 2. c/d", pys "## 3. e/f"] ∧
     ∃ u v, generate_github_markdown_content fixtureRepos dateFixture =
       u ++ pys "| 总项目数 | 3 |" ++ v) := by
  have hgen : ∀ (repos : List Repo) (d : DateParts),
      containsSeq (generate_github_markdown_content repos d) (headersFrom 1 repos) ∧
      ∃ u v, generate_github_markdown_content repos d =
        u ++ totalRow repos.length ++ v := by
    intro repos d
    constructor
    · unfold generate_github_markdown_content
      cases repos with
      | nil => exact trivial
      | cons r rs =>
        have hS : sectionsFrom 1 (r :: rs) ≠ [] := by
          show generate_repository_section r 1 :: sectionsFrom 2 rs ≠ []
          simp
        have hH : githubHeaderLines d ≠ [] := by simp [githubHeaderLines]
        have hT : githubStatsLines (r :: rs) ≠ [] := by simp [githubStatsLines]
        rw [List.append_assoc]
        rw [joinNL_append _ _ hH (by
          intro hcon
          exact hS (List.append_eq_nil.mp hcon).1)]
        rw [joinNL_append _ _ hS hT]
        have h1 := sections_contains (r :: rs) 1
          ('\n' :: joinNL (githubStatsLines (r :: rs)))
        have h2 := containsSeq_prepend (joinNL (githubHeaderLines d) ++ ['\n']) _ _ h1
        simpa [List.append_assoc] using h2
    · have hmem : totalRow repos.length ∈
          (githubHeaderLines d ++ sectionsFrom 1 repos ++ githubStatsLines repos) := by
        refine List.mem_append.mpr (Or.inr ?_)
        simp [githubStatsLines, totalRow]
      unfold generate_github_markdown_content
      exact joinNL_mem _ _ hmem
  refine ⟨⟨by decide, by decide⟩, hgen, ?_, ?_⟩
  · have h := (hgen fixtureRepos dateFixture).1
    have he : headersFrom 1 fixtureRepos =
        [pys "## 1. a/b", pys "## 2. c/d", pys "## 3. e/f"] := by decide
    rwa [he] at h
  · have h := (hgen fixtureRepos dateFixture).2
    have he : totalRow fixtureRepos.length = pys "| 总项目数 | 3 |" := by decide
    rwa [he] at h

end DayHot
